import Mathlib

/-
  Verification development for the synapse-go message-mediation gateway.

  Shallow embedding of the core subsystems, translated from the Go sources:
  - query-result / payload model        (internal/pkg/parser/payload.go)
  - JSON payload queries                (parser JSONPayload, gjson-backed)
  - XML payload queries                 (parser XMLPayload, XPath-backed)
  - payload factory                     (internal/pkg/parser/factory.go)
  - expression engine                   (parser ExpressionEngine)
  - log mediator                        (artifacts LogMediator)
  - mediation engine                    (modelled from the spec, see below)
  - router query-parameter middleware   (internal/pkg/core/router/service.go)
  - CORS middleware                     (internal/pkg/core/router/cors.go)
  - API artifact XML decoding           (types API/Resource Unmarshal)

  Go maps are embedded as association lists (iteration order fixed by the
  list), Go byte slices and strings as Lean String, Go (value, error)
  multiple returns as pairs with an Option error component, and the
  encoding/xml token stream as an explicit list of tokens.
-/

set_option maxRecDepth 8000

namespace SynapseGo

/-! ## Go string primitives

Structural character-list implementations of the Go standard-library
string operations the repository uses (strings.Split with a one-character
separator, strings.TrimSpace, strings.HasPrefix, strings.ToLower,
strings.Fields, numeric parsing), so that every concrete evaluation in
this development reduces inside the kernel. -/

/-- strings.Split with a one-character separator (worker). -/
def goSplitCharAux (sep : Char) : List Char → String → List String
  | [], acc => [acc]
  | c :: rest, acc =>
      if c = sep then acc :: goSplitCharAux sep rest ""
      else goSplitCharAux sep rest (acc.push c)

/-- strings.Split with a one-character separator; like Go, a string with
no separator yields a one-element list and the empty string yields one
empty piece. -/
def goSplitChar (sep : Char) (s : String) : List String :=
  goSplitCharAux sep s.data ""

/-- Character-list prefix test (pattern first). -/
def goHasPref : List Char → List Char → Bool
  | [], _ => true
  | _ :: _, [] => false
  | p :: ps, c :: cs => p = c && goHasPref ps cs

/-- strings.HasPrefix s pre. -/
def goStartsWith (s pre : String) : Bool := goHasPref pre.data s.data

/-- strings.TrimSpace. -/
def goTrim (s : String) : String :=
  ((s.data.dropWhile Char.isWhitespace).reverse.dropWhile Char.isWhitespace).reverse.asString

/-- ASCII lower-casing of one character. -/
def goLowerChar (c : Char) : Char :=
  if 65 ≤ c.toNat ∧ c.toNat ≤ 90 then Char.ofNat (c.toNat + 32) else c

/-- strings.ToLower (ASCII, which covers the media types involved). -/
def goToLower (s : String) : String := (s.data.map goLowerChar).asString

/-- Accumulate decimal digits. -/
def goDigitsToNat : List Char → Nat → Nat
  | [], acc => acc
  | c :: rest, acc => goDigitsToNat rest (acc * 10 + (c.toNat - 48))

/-- Parse a nonempty all-digit string. -/
def goToNat? (s : String) : Option Nat :=
  if s.length > 0 && s.data.all Char.isDigit then some (goDigitsToNat s.data 0) else none

/-- Split on a character predicate (worker for strings.Fields). -/
def goSplitPred (p : Char → Bool) : List Char → String → List String
  | [], acc => [acc]
  | c :: rest, acc =>
      if p c then acc :: goSplitPred p rest "" else goSplitPred p rest (acc.push c)

/-- strings.Fields: whitespace-delimited tokens, empty tokens dropped. -/
def goFields (s : String) : List String :=
  (goSplitPred Char.isWhitespace s.data "").filter (· ≠ "")

/-! ## Query result model (internal/pkg/parser/payload.go, lines 3-21) -/

/-- ResultType constants from payload.go.  The Go type is a string; the
constructor names mirror the constant values, and `empty` stands for the
zero value of the string type (used by the zero QueryResult). -/
inductive ResultType where
  | scalar
  | nodeset
  | object
  | array
  | string
  | boolean
  | number
  | unknown
  | empty
deriving DecidableEq, Repr

/-- JSON documents.  gjson numbers are 64-bit floats in Go; no claim
inspects the numeric value itself, so a number is carried as its literal
text. -/
inductive Json where
  | null
  | bool (b : Bool)
  | num (numeral : String)
  | str (s : String)
  | arr (elems : List Json)
  | obj (fields : List (String × Json))

/-- The dynamic `Value interface{}` field of QueryResult: string, float64,
bool, []interface{}, map[string]interface{}, nil, or - for XML node sets -
a slice of node inner texts. -/
inductive QValue where
  | qNull
  | qBool (b : Bool)
  | qNum (numeral : String)
  | qStr (s : String)
  | qArr (elems : List Json)
  | qObj (fields : List (String × Json))
  | qStrList (items : List String)

/-- QueryResult from payload.go lines 17-21. -/
structure QueryResult where
  value : QValue
  type : ResultType

/-- The zero Go value QueryResult{} (nil value, empty-string type). -/
def emptyQR : QueryResult := ⟨QValue.qNull, ResultType.empty⟩

/-! ## Error model (internal/pkg/parser/errors.go and factory.go) -/

/-- Error values produced by the parser package: ErrUnsupportedExpression,
ErrEvaluationFailed (whose InnerError may be nil - `evalFailed` - or a
wrapped error - `evalFailedCaused`), ErrInvalidPayloadForOperation, the
factory's plain unsupported-content-type error, and fmt.Errorf wrapping
with %w as done in ExpressionEngine.Evaluate. -/
inductive EvalErr where
  | unsupportedExpr (expression : String)
  | evalFailed (expression reason : String)
  | evalFailedCaused (expression reason : String) (inner : EvalErr)
  | invalidPayloadForOperation (operation payloadType reason : String)
  | unsupportedContentType (contentType : String)
  | wrapped (msg : String) (inner : EvalErr)

/-- Classification of an error value, looking through fmt.Errorf %w
wrapping (as errors.As would). -/
def EvalErr.kind : EvalErr → String
  | .unsupportedExpr _ => "unsupportedExpression"
  | .evalFailed _ _ => "evaluationFailed"
  | .evalFailedCaused _ _ _ => "evaluationFailed"
  | .invalidPayloadForOperation _ _ _ => "invalidPayloadForOperation"
  | .unsupportedContentType _ => "unsupportedContentType"
  | .wrapped _ inner => inner.kind

/-- The Reason field of an ErrEvaluationFailed error, looking through
wrapping; empty for other error shapes. -/
def EvalErr.reason : EvalErr → String
  | .evalFailed _ r => r
  | .evalFailedCaused _ r _ => r
  | .wrapped _ inner => inner.reason
  | _ => ""

/-! ## JSON payload queries (src/unnamed/part_009, JSONPayload.Query) -/

/-- One step of gjson dotted-path addressing: an object member by key, or
an array element by numeric index.  Models the gjson path subset the
repository relies on (plain dotted paths). -/
def jsonStep (v : Json) (part : String) : Option Json :=
  match v with
  | .obj fields => fields.lookup part
  | .arr elems =>
      match goToNat? part with
      | some i => elems.get? i
      | none => none
  | _ => none

/-- gjson-style path lookup: the path splits on the dots and each part
addresses into the current value.  `none` models gjson result.Exists()
being false. -/
def jsonGet (v : Json) (path : String) : Option Json :=
  (goSplitChar '.' path).foldlM jsonStep v

/-- The result-typing switch of JSONPayload.Query (part_009 lines 50-83):
string/number/boolean map to their kinds, arrays and objects keep their
elements, an existing JSON null becomes a nil-valued scalar result. -/
def jsonTypedResult (v : Json) : QueryResult :=
  match v with
  | .str s => ⟨QValue.qStr s, ResultType.string⟩
  | .num n => ⟨QValue.qNum n, ResultType.number⟩
  | .bool b => ⟨QValue.qBool b, ResultType.boolean⟩
  | .arr elems => ⟨QValue.qArr elems, ResultType.array⟩
  | .obj fields => ⟨QValue.qObj fields, ResultType.object⟩
  | .null => ⟨QValue.qNull, ResultType.scalar⟩

/-- JSONPayload.Query (part_009 lines 38-84): a path that does not exist
returns a nil/unknown QueryResult together with a non-nil
ErrEvaluationFailed; an existing value returns its typed result and no
error. -/
def jsonQuery (v : Json) (expression : String) : QueryResult × Option EvalErr :=
  match jsonGet v expression with
  | none =>
      (⟨QValue.qNull, ResultType.unknown⟩,
       some (EvalErr.evalFailed expression "path not found or value does not exist"))
  | some r => (jsonTypedResult r, none)

/-! ## XML payload queries (internal/pkg/parser/payload.go, XMLPayload.Query)

The XML document tree mirrors xmlquery's node model (element nodes with
attributes and children, text nodes).  The antchfx XPath library is a
third-party dependency; it is embedded as a compiler/evaluator for the
absolute child-step paths (with a final text() selector) that the
repository uses, producing node-set values, while the dispatch switch of
XMLPayload.Query is translated in full. -/

/-- An xmlquery node: element (with attributes) or character data. -/
inductive XNode where
  | elem (name : String) (attrs : List (String × String)) (children : List XNode)
  | textN (s : String)

/-- A parsed document: the children of xmlquery's document node. -/
structure XmlDoc where
  children : List XNode

mutual

/-- xmlquery Node.InnerText: concatenated text content of the subtree. -/
def XNode.innerText : XNode → String
  | .textN s => s
  | .elem _ _ children => XNode.innerTextList children

/-- InnerText of a list of children, concatenated in order. -/
def XNode.innerTextList : List XNode → String
  | [] => ""
  | c :: rest => XNode.innerText c ++ XNode.innerTextList rest

end

/-- One XPath location step of the supported sublanguage: a child element
test by name, or the text() node test. -/
inductive XPathStep where
  | child (name : String)
  | textSel

/-- Values an antchfx XPath evaluation can produce: string, float64,
bool, or a node iterator (payload.go switch, lines 89-127).  Numbers are
carried as literal text as in the JSON model. -/
inductive XPathVal where
  | vstr (s : String)
  | vnum (numeral : String)
  | vbool (b : Bool)
  | nodes (ns : List XNode)

/-- Compile an XPath expression of the supported sublanguage:
an absolute path of name steps, optionally ending in text(). -/
def xpathCompile (expression : String) : Option (List XPathStep) :=
  if goStartsWith expression "/" then
    (goSplitChar '/' (expression.drop 1)).mapM fun p =>
      if p = "text()" then some XPathStep.textSel
      else if p.length > 0 && p.data.all (fun c => c.isAlphanum || c = '_' || c = '-' || c = '.') then
        some (XPathStep.child p)
      else none
  else none

/-- Child elements of a node with the given name. -/
def xpathChildElems (name : String) : XNode → List XNode
  | .textN _ => []
  | .elem _ _ children =>
      children.filter fun c =>
        match c with
        | .elem n _ _ => n = name
        | _ => false

/-- Text-node children of a node. -/
def xpathTextChildren : XNode → List XNode
  | .textN _ => []
  | .elem _ _ children =>
      children.filter fun c =>
        match c with
        | .textN _ => true
        | _ => false

/-- Evaluate one location step against a current node set. -/
def xpathStepEval (current : List XNode) : XPathStep → List XNode
  | .child name => (current.map (xpathChildElems name)).flatten
  | .textSel => (current.map xpathTextChildren).flatten

/-- Evaluate a compiled path from the document node downwards. -/
def xpathEval (steps : List XPathStep) (doc : XmlDoc) : List XNode :=
  steps.foldl xpathStepEval [XNode.elem "" [] doc.children]

/-- The result-shaping switch of XMLPayload.Query (payload.go lines
89-127): strings/numbers/booleans pass through typed; a node iterator is
drained collecting each node's InnerText; an empty node set is a nil
nodeset result with no error; exactly one node collapses to a string
result; several nodes become a nodeset of their inner texts in order. -/
def xmlDispatch (val : XPathVal) : QueryResult × Option EvalErr :=
  match val with
  | .vstr s => (⟨QValue.qStr s, ResultType.string⟩, none)
  | .vnum n => (⟨QValue.qNum n, ResultType.number⟩, none)
  | .vbool b => (⟨QValue.qBool b, ResultType.boolean⟩, none)
  | .nodes ns =>
      let results := ns.map XNode.innerText
      match ns with
      | [] => (⟨QValue.qNull, ResultType.nodeset⟩, none)
      | _ =>
          match results with
          | [r] => (⟨QValue.qStr r, ResultType.string⟩, none)
          | _ => (⟨QValue.qStrList results, ResultType.nodeset⟩, none)

/-- XMLPayload.Query (payload.go lines 73-128): compile the expression
(failure is an ErrEvaluationFailed with reason "XPath compilation
failed"), evaluate it against the parsed document, and shape the result
via the dispatch switch.  The supported sublanguage always evaluates to a
node set. -/
def xmlQuery (doc : XmlDoc) (expression : String) : QueryResult × Option EvalErr :=
  match xpathCompile expression with
  | none => (emptyQR, some (EvalErr.evalFailed expression "XPath compilation failed"))
  | some steps => xmlDispatch (XPathVal.nodes (xpathEval steps doc))

/-! ## Content parsers backing the payload constructors

NewJSONPayload validates and parses with gjson; NewXMLPayload parses with
xmlquery.  Both libraries are external; they are embedded as
recursive-descent parsers over the raw characters, fueled by the input
length (each nested call consumes input, so the fuel never runs out on
the inputs the development evaluates). -/

/-- The literal characters { and }. -/
def lbraceC : Char := Char.ofNat 123

/-- See lbraceC. -/
def rbraceC : Char := Char.ofNat 125

/-- Drop leading JSON/XML whitespace characters. -/
def skipWsChars : List Char → List Char
  | [] => []
  | c :: rest =>
      if c = ' ' || c = '\t' || c = '\n' || c = '\r' then skipWsChars rest else c :: rest

/-- Scan the remainder of a JSON string literal (opening quote already
consumed), handling the basic escapes. -/
def jsonScanStrAux : List Char → String → Option (String × List Char)
  | [], _ => none
  | c :: rest, acc =>
      if c = '"' then some (acc, rest)
      else if c = '\\' then
        match rest with
        | [] => none
        | e :: rest2 =>
            if e = '"' then jsonScanStrAux rest2 (acc.push '"')
            else if e = '\\' then jsonScanStrAux rest2 (acc.push '\\')
            else if e = '/' then jsonScanStrAux rest2 (acc.push '/')
            else if e = 'n' then jsonScanStrAux rest2 (acc.push '\n')
            else if e = 't' then jsonScanStrAux rest2 (acc.push '\t')
            else if e = 'r' then jsonScanStrAux rest2 (acc.push '\r')
            else none
      else jsonScanStrAux rest (acc.push c)

/-- Characters that may appear in a JSON numeral. -/
def jsonNumChar (c : Char) : Bool :=
  c.isDigit || c = '-' || c = '+' || c = '.' || c = 'e' || c = 'E'

/-- Scan a JSON numeral as literal text. -/
def jsonScanNum (cs : List Char) : String × List Char :=
  ((cs.takeWhile jsonNumChar).asString, cs.dropWhile jsonNumChar)

/-- Match a keyword literal (true/false/null) at the head of the input. -/
def stripLit (lit : String) (cs : List Char) : Option (List Char) :=
  if cs.take lit.length = lit.data then some (cs.drop lit.length) else none

mutual

/-- Parse one JSON value. -/
def jsonParseVal : Nat → List Char → Option (Json × List Char)
  | 0, _ => none
  | fuel + 1, cs =>
      match skipWsChars cs with
      | [] => none
      | c :: rest =>
          if c = lbraceC then jsonParseObj fuel rest []
          else if c = '[' then jsonParseArr fuel rest []
          else if c = '"' then
            match jsonScanStrAux rest "" with
            | some (s, rest2) => some (Json.str s, rest2)
            | none => none
          else if c.isDigit || c = '-' then
            let n := jsonScanNum (c :: rest)
            some (Json.num n.1, n.2)
          else
            match stripLit "true" (c :: rest) with
            | some r => some (Json.bool true, r)
            | none =>
                match stripLit "false" (c :: rest) with
                | some r => some (Json.bool false, r)
                | none =>
                    match stripLit "null" (c :: rest) with
                    | some r => some (Json.null, r)
                    | none => none

/-- Parse the members of a JSON array (opening bracket already consumed). -/
def jsonParseArr : Nat → List Char → List Json → Option (Json × List Char)
  | 0, _, _ => none
  | fuel + 1, cs, acc =>
      match skipWsChars cs with
      | [] => none
      | c :: rest =>
          if c = ']' && acc.isEmpty then some (Json.arr [], rest)
          else
            match jsonParseVal fuel (c :: rest) with
            | none => none
            | some (v, r2) =>
                match skipWsChars r2 with
                | ',' :: r3 => jsonParseArr fuel r3 (acc ++ [v])
                | ']' :: r3 => some (Json.arr (acc ++ [v]), r3)
                | _ => none

/-- Parse the members of a JSON object (opening brace already consumed). -/
def jsonParseObj : Nat → List Char → List (String × Json) →
    Option (Json × List Char)
  | 0, _, _ => none
  | fuel + 1, cs, acc =>
      match skipWsChars cs with
      | [] => none
      | c :: rest =>
          if c = rbraceC && acc.isEmpty then some (Json.obj [], rest)
          else if c = '"' then
            match jsonScanStrAux rest "" with
            | none => none
            | some (k, r2) =>
                match skipWsChars r2 with
                | ':' :: r3 =>
                    match jsonParseVal fuel r3 with
                    | none => none
                    | some (v, r4) =>
                        match skipWsChars r4 with
                        | ',' :: r5 => jsonParseObj fuel r5 (acc ++ [(k, v)])
                        | d :: r5 =>
                            if d = rbraceC then some (Json.obj (acc ++ [(k, v)]), r5)
                            else none
                        | _ => none
                | _ => none
          else none

end

/-- gjson.ValidBytes + gjson.ParseBytes (NewJSONPayload, part_009 lines
18-27): parse the whole input as a single JSON document. -/
def jsonParse (s : String) : Option Json :=
  match jsonParseVal (s.length + 1) s.data with
  | some (v, rest) => if (skipWsChars rest).isEmpty then some v else none
  | none => none

/-- Characters permitted in an XML name. -/
def xmlNameChar (c : Char) : Bool :=
  c.isAlphanum || c = '_' || c = '-' || c = ':' || c = '.'

/-- Scan an XML name. -/
def xmlScanName (cs : List Char) : String × List Char :=
  ((cs.takeWhile xmlNameChar).asString, cs.dropWhile xmlNameChar)

mutual

/-- Parse a forest of XML nodes, stopping at a closing tag or the end of
the input. -/
def xmlParseNodes : Nat → List Char → Option (List XNode × List Char)
  | 0, _ => none
  | fuel + 1, cs =>
      match cs with
      | [] => some ([], [])
      | c :: rest =>
          if c = '<' then
            match rest with
            | '/' :: _ => some ([], cs)
            | _ =>
                match xmlParseElem fuel rest with
                | none => none
                | some (node, r2) =>
                    match xmlParseNodes fuel r2 with
                    | some (more, r3) => some (node :: more, r3)
                    | none => none
          else
            let txt := (cs.takeWhile (· ≠ '<')).asString
            match xmlParseNodes fuel (cs.dropWhile (· ≠ '<')) with
            | some (more, r3) => some (XNode.textN txt :: more, r3)
            | none => none

/-- Parse one element (the opening angle bracket already consumed). -/
def xmlParseElem : Nat → List Char → Option (XNode × List Char)
  | 0, _ => none
  | fuel + 1, cs =>
      let scanned := xmlScanName cs
      if scanned.1 = "" then none
      else
        match xmlParseAttrs fuel scanned.2 [] with
        | none => none
        | some (attrs, r2) =>
            match skipWsChars r2 with
            | '/' :: '>' :: r3 => some (XNode.elem scanned.1 attrs [], r3)
            | '>' :: r3 =>
                match xmlParseNodes fuel r3 with
                | none => none
                | some (children, r4) =>
                    match r4 with
                    | '<' :: '/' :: r5 =>
                        let closing := xmlScanName r5
                        if closing.1 = scanned.1 then
                          match skipWsChars closing.2 with
                          | '>' :: r7 => some (XNode.elem scanned.1 attrs children, r7)
                          | _ => none
                        else none
                    | _ => none
            | _ => none

/-- Parse the attribute list of an element start tag. -/
def xmlParseAttrs : Nat → List Char → List (String × String) →
    Option (List (String × String) × List Char)
  | 0, _, _ => none
  | fuel + 1, cs, acc =>
      match skipWsChars cs with
      | [] => some (acc, [])
      | c :: rest =>
          if xmlNameChar c then
            let scanned := xmlScanName (c :: rest)
            match skipWsChars scanned.2 with
            | '=' :: r2 =>
                match skipWsChars r2 with
                | '"' :: r3 =>
                    let v := (r3.takeWhile (· ≠ '"')).asString
                    match r3.dropWhile (· ≠ '"') with
                    | '"' :: r4 => xmlParseAttrs fuel r4 (acc ++ [(scanned.1, v)])
                    | _ => none
                | _ => none
            | _ => none
          else some (acc, c :: rest)

end

/-- xmlquery.Parse (NewXMLPayload, payload.go lines 52-62): parse the
input into the document node's children. -/
def xmlParse (s : String) : Option XmlDoc :=
  match xmlParseNodes (s.length + 1) s.data with
  | some (ns, []) => some ⟨ns⟩
  | _ => none

/-! ## Payload objects and the factory (internal/pkg/parser/factory.go) -/

/-- The two PayloadObject variants: XMLPayload (payload.go) and
JSONPayload (part_009), each keeping the raw content and the parsed
form.  The constructors fix the content types exactly as the Go
constructors do. -/
inductive PayloadObject where
  | xmlP (raw : String) (doc : XmlDoc)
  | jsonP (raw : String) (value : Json)

/-- GetContentType: "application/xml" for XMLPayload, "application/json"
for JSONPayload (set by NewXMLPayload / NewJSONPayload). -/
def PayloadObject.getContentType : PayloadObject → String
  | .xmlP _ _ => "application/xml"
  | .jsonP _ _ => "application/json"

/-- PayloadObject.Query dispatching to XMLPayload.Query or
JSONPayload.Query. -/
def PayloadObject.query : PayloadObject → String → QueryResult × Option EvalErr
  | .xmlP _ doc, e => xmlQuery doc e
  | .jsonP _ v, e => jsonQuery v e

/-- PayloadFactory.CreatePayload (factory.go lines 18-31): normalize the
content type (substring before the semicolon, lower-cased), construct the
matching payload - XML and JSON validity are checked at construction -
or fail on an unsupported content type. -/
def CreatePayload (raw contentType : String) : Except EvalErr PayloadObject :=
  let normalizedContentType := goToLower ((goSplitChar ';' contentType).headD "")
  if normalizedContentType = "application/xml" || normalizedContentType = "text/xml" then
    match xmlParse raw with
    | some doc => .ok (PayloadObject.xmlP raw doc)
    | none => .error (EvalErr.evalFailed "" "XML parsing failed")
  else if normalizedContentType = "application/json" then
    match jsonParse raw with
    | some v => .ok (PayloadObject.jsonP raw v)
    | none => .error (EvalErr.evalFailed "" "Invalid JSON content")
  else .error (EvalErr.unsupportedContentType contentType)

/-! ## Expression engine (src/unnamed/part_008, ExpressionEngine) -/

/-- The xpath expression marker (part_008 line 9). -/
def xpathPref : String := "xpath:"

/-- The jsonpath expression marker (part_008 line 10). -/
def jsonpathPref : String := "jsonpath:"

/-- evaluateSingleExpression (part_008 lines 102-118): an xpath: prefixed
part requires an XML content type (else ErrInvalidPayloadForOperation,
before any query runs), a jsonpath: part requires application/json, and
the rest of the part is passed to the payload's Query; anything else is
an ErrUnsupportedExpression. -/
def evaluateSingleExpression (pld : PayloadObject) (expressionPart : String) :
    QueryResult × Option EvalErr :=
  if goStartsWith expressionPart xpathPref then
    if pld.getContentType ≠ "application/xml" ∧ pld.getContentType ≠ "text/xml" then
      (emptyQR,
       some (EvalErr.invalidPayloadForOperation "XPath" pld.getContentType
         "XPath requires XML payload"))
    else
      pld.query (expressionPart.drop xpathPref.length)
  else if goStartsWith expressionPart jsonpathPref then
    if pld.getContentType ≠ "application/json" then
      (emptyQR,
       some (EvalErr.invalidPayloadForOperation "JSONPath" pld.getContentType
         "JSONPath requires JSON payload"))
    else
      pld.query (expressionPart.drop jsonpathPref.length)
  else
    (emptyQR, some (EvalErr.unsupportedExpr expressionPart))

/-- One iteration of the i>0 branch of ExpressionEngine.Evaluate
(part_008 lines 44-95): the previous result must be a string (else a
"requires string input" ErrEvaluationFailed); the part splits into the
pipe operation name and the next expression; extractAsJSON / extractAsXML
re-parse the previous string result into a NEW payload of that format via
the factory (any other name is an "unknown pipe operation"
ErrUnsupportedExpression); the next expression is then evaluated against
that new payload, errors being wrapped as in fmt.Errorf with %w. -/
def evalPipeStep (fullExpression : String) (_activePayload : PayloadObject)
    (currentResult : QueryResult) (trimmedPart : String) :
    Except EvalErr (PayloadObject × QueryResult) :=
  match currentResult.value with
  | .qStr prevResultStr =>
      let pipeAndNextExpr := goFields trimmedPart
      if pipeAndNextExpr.length < 2 then
        .error (EvalErr.evalFailed fullExpression
          ("invalid pipe operation format: " ++ trimmedPart))
      else
        let pipeOperation := pipeAndNextExpr.headD ""
        let nextExpression := " ".intercalate pipeAndNextExpr.tail
        let newPayload : Except EvalErr PayloadObject :=
          if pipeOperation = "extractAsJSON" then
            match CreatePayload prevResultStr "application/json" with
            | .error e =>
                .error (EvalErr.evalFailedCaused fullExpression
                  ("failed to create intermediate JSON payload for pipe " ++ pipeOperation) e)
            | .ok p => .ok p
          else if pipeOperation = "extractAsXML" then
            match CreatePayload prevResultStr "application/xml" with
            | .error e =>
                .error (EvalErr.evalFailedCaused fullExpression
                  ("failed to create intermediate XML payload for pipe " ++ pipeOperation) e)
            | .ok p => .ok p
          else
            .error (EvalErr.unsupportedExpr ("unknown pipe operation: " ++ pipeOperation))
        match newPayload with
        | .error e => .error e
        | .ok activePayload2 =>
            match evaluateSingleExpression activePayload2 nextExpression with
            | (_, some e) =>
                .error (EvalErr.wrapped
                  ("error in chained expression part " ++ nextExpression ++
                    " after pipe " ++ pipeOperation) e)
            | (r, none) => .ok (activePayload2, r)
  | _ =>
      .error (EvalErr.evalFailed fullExpression
        ("pipe operation " ++ trimmedPart ++ " requires string input from previous step"))

/-- The loop over the i>0 parts of Evaluate, threading the active payload
and current result; the unused activePayload parameter mirrors the fact
that the last intermediate payload stays active across iterations. -/
def evalPipeLoop (fullExpression : String) :
    PayloadObject → QueryResult → List String → QueryResult × Option EvalErr
  | _, currentResult, [] => (currentResult, none)
  | active, currentResult, part :: more =>
      match evalPipeStep fullExpression active currentResult (goTrim part) with
      | .error e => (emptyQR, some e)
      | .ok (p2, r2) => evalPipeLoop fullExpression p2 r2 more

/-- ExpressionEngine.Evaluate (part_008 lines 29-98): split the full
expression on the pipe character; the first part is evaluated directly
against the initial payload (errors wrapped with the part), the remaining
parts run through the pipe steps. -/
def Evaluate (currentPayload : PayloadObject) (fullExpression : String) :
    QueryResult × Option EvalErr :=
  match goSplitChar '|' fullExpression with
  | [] => (emptyQR, none)
  | firstPart :: rest =>
      match evaluateSingleExpression currentPayload (goTrim firstPart) with
      | (_, some e) =>
          (emptyQR, some (EvalErr.wrapped ("error in expression part " ++ goTrim firstPart) e))
      | (r0, none) => evalPipeLoop fullExpression currentPayload r0 rest

/-! ## Message context and mediators -/

/-- Replace the binding of a key in an association list, appending when
absent (Go map assignment). -/
def assocSet {α : Type} (ps : List (String × α)) (k : String) (v : α) :
    List (String × α) :=
  match ps with
  | [] => [(k, v)]
  | (k0, v0) :: rest => if k0 = k then (k, v) :: rest else (k0, v0) :: assocSet rest k v

/-- Values stored in the MsgContext property bag (map[string]interface{}):
strings, string maps (uriParams/queryParams), and the buffered request
body stream (io.ReadCloser; `readFails` models io.ReadAll returning an
error). -/
inductive PropValue where
  | pStr (s : String)
  | pStrMap (m : List (String × String))
  | bodyStream (content : String) (readFails : Bool)
deriving DecidableEq, Repr

/-- Modelled from the spec: synctx.MsgContext is not among the sources;
per section 3 (MessageContext) and its uses in LogMediator.Execute and the
router service it carries a property bag, a header map and the message
payload bytes with their content type. -/
structure MsgContext where
  properties : List (String × PropValue)
  headers : List (String × String)
  rawPayload : Option String
  contentType : String
deriving DecidableEq, Repr

/-- Source position attached to artifacts (artifacts.Position: FileName,
LineNo, Hierarchy). -/
structure Position where
  fileName : String
  lineNo : Nat
  hierarchy : String
deriving DecidableEq, Repr

/-- The zero Go value of Position. -/
def zeroPosition : Position := ⟨"", 0, ""⟩

/-- artifacts.LogMediator (src/unnamed/part_002 lines 30-34). -/
structure LogMediator where
  category : String
  message : String
  position : Position
deriving DecidableEq, Repr

/-- LogMediator.Execute (part_002 lines 36-60): logs (console output not
modelled), and when the http_request_body property holds a readable body
stream whose read succeeds, re-buffers it back into the same property so
later mediators can read it again; a failed read is only logged.  In
every case it returns (true, nil). -/
def LogMediator.Execute (_lm : LogMediator) (context : MsgContext) :
    MsgContext × Bool × Option String :=
  match context.properties.lookup "http_request_body" with
  | some (PropValue.bodyStream content readFails) =>
      if readFails = false then
        ({ context with
            properties :=
              assocSet context.properties "http_request_body"
                (PropValue.bodyStream content false) },
          true, none)
      else (context, true, none)
  | _ => (context, true, none)

/-! ## Mediation engine

The mediation engine (artifacts Sequence execution / Resource.Mediate) is
called from the router service but its implementation is not among the
sources; it is modelled from the spec, section 4.5. -/

/-- A mediator in execution form: Execute(context) -> (continue, error),
with its MessageContext mutation made explicit. -/
def Mediator : Type := MsgContext → MsgContext × Bool × Option String

/-- The spec's per-message state machine (section 4.5). -/
inductive MediationState where
  | pending
  | executing
  | succeeded
  | faulted
deriving DecidableEq, Repr

/-- Modelled from the spec: execute a sequence's mediators in declared
order; a mediator signalling continue=false or returning a non-nil error
stops the sequence immediately.  Returns the final context, the number of
mediators that executed, and whether every mediator continued. -/
def executeSequence : List Mediator → MsgContext → MsgContext × Nat × Bool
  | [], context => (context, 0, true)
  | m :: rest, context =>
      let r := m context
      if r.2.1 = true ∧ r.2.2 = none then
        let rr := executeSequence rest r.1
        (rr.1, rr.2.1 + 1, rr.2.2)
      else (r.1, 1, false)

/-- Modelled from the spec: the engine runs the in-sequence; on failure it
transitions to Faulted and runs the fault-sequence against the same
(possibly mutated) MessageContext; a fault-sequence failure is terminal
(no further fallback).  Returns the final context, the number of
in-sequence mediators executed, the number of fault mediators executed,
and the final state. -/
def mediate (inSeq faultSeq : List Mediator) (context : MsgContext) :
    MsgContext × Nat × Nat × MediationState :=
  let r := executeSequence inSeq context
  if r.2.2 = true then (r.1, r.2.1, 0, MediationState.succeeded)
  else
    let f := executeSequence faultSeq r.1
    (f.1, r.2.1, f.2.1, MediationState.faulted)

/-- The context obtained by running a list of mediators assuming each one
continues (used to phrase where the failing mediator runs). -/
def applyOk : List Mediator → MsgContext → MsgContext
  | [], c => c
  | m :: ms, c => applyOk ms (m c).1

/-- Every mediator in the list, run in order from the given context,
returns (continue=true, err=nil). -/
inductive AllContinue : List Mediator → MsgContext → Prop
  | nil (c : MsgContext) : AllContinue [] c
  | cons {m : Mediator} {ms : List Mediator} {c c' : MsgContext} :
      m c = (c', true, none) → AllContinue ms c' → AllContinue (m :: ms) c

/-! ## Router query-parameter middleware (service.go lines 210-243) -/

/-- Outcome of an HTTP middleware: forward to the wrapped handler, or
reject with a status and message (http.Error). -/
inductive MWResult where
  | pass
  | reject (status : Nat) (msg : String)
deriving DecidableEq, Repr

/-- The first request query key that is not among the declared query
parameters (first loop of the middleware, lines 223-229). -/
def findUndeclared (queryKeys : List String)
    (queryParameters : List (String × String)) : Option String :=
  match queryKeys with
  | [] => none
  | k :: rest =>
      if (queryParameters.lookup k).isSome then findUndeclared rest queryParameters
      else some k

/-- The first declared query parameter missing from the request (second
loop of the middleware, lines 232-238). -/
def findMissing (queryParameters : List (String × String))
    (queryKeys : List String) : Option String :=
  match queryParameters with
  | [] => none
  | (k, _) :: rest =>
      if queryKeys.contains k then findMissing rest queryKeys else some k

/-- createQueryParamMiddleware (service.go lines 210-243): with no
declared query parameters the request passes straight through; otherwise
any undeclared request key is rejected 400 "Unsupported query parameter",
then any missing declared key is rejected 400 "Missing required query
parameter", else the request reaches the resource handler. -/
def queryParamMiddleware (queryParameters : List (String × String))
    (queryKeys : List String) : MWResult :=
  if queryParameters.length = 0 then MWResult.pass
  else
    match findUndeclared queryKeys queryParameters with
    | some key => MWResult.reject 400 ("Unsupported query parameter: " ++ key)
    | none =>
        match findMissing queryParameters queryKeys with
        | some key => MWResult.reject 400 ("Missing required query parameter: " ++ key)
        | none => MWResult.pass

/-! ## CORS middleware (internal/pkg/core/router/cors.go) -/

/-- artifacts.CORSConfig per the spec's data model and its uses in
cors.go. -/
structure CORSConfig where
  enabled : Bool
  allowOrigins : List String
  allowMethods : List String
  allowHeaders : List String
  exposeHeaders : List String
  allowCredentials : Bool
  maxAge : Int
deriving DecidableEq, Repr

/-- Outcome of the CORS middleware for one request: pass through to the
wrapped handler (with response headers already set), reject 403, or
answer a preflight 204 directly. -/
inductive CorsResult where
  | passthrough (headers : List (String × String))
  | forbidden (status : Nat) (msg : String)
  | preflight (status : Nat) (headers : List (String × String))
deriving DecidableEq, Repr

/-- CORSMiddleware (cors.go lines 33-111).  The origin-allowed check is a
method of the artifacts package (not among the sources) and is taken as a
parameter.  Disabled config or an absent Origin pass through untouched; a
disallowed origin is a 403; otherwise Access-Control-Allow-Origin echoes
the request origin when credentials are allowed, else "*" exactly when
the allow-list contains "*", else the origin; preflight OPTIONS requests
are answered 204 with the method/header/max-age/credentials headers,
other requests continue to the handler with expose-headers/credentials
set. -/
def corsMiddleware (isOriginAllowed : String → Bool) (config : CORSConfig)
    (method origin requestHeaders : String) : CorsResult :=
  if config.enabled = false then CorsResult.passthrough []
  else if origin = "" then CorsResult.passthrough []
  else if isOriginAllowed origin = false then
    CorsResult.forbidden 403 "CORS: Origin not allowed"
  else
    let hdrs := assocSet ([] : List (String × String)) "Access-Control-Allow-Origin"
      (if config.allowCredentials = true ∧ origin ≠ "" then origin
       else if config.allowOrigins.contains "*" then "*" else origin)
    if method = "OPTIONS" then
      let hdrs :=
        if config.allowMethods.length > 0 then
          assocSet hdrs "Access-Control-Allow-Methods" (", ".intercalate config.allowMethods)
        else hdrs
      let hdrs :=
        if requestHeaders ≠ "" then
          assocSet hdrs "Access-Control-Allow-Headers" requestHeaders
        else if config.allowHeaders.length > 0 then
          assocSet hdrs "Access-Control-Allow-Headers" (", ".intercalate config.allowHeaders)
        else hdrs
      let hdrs :=
        if config.maxAge > 0 then
          assocSet hdrs "Access-Control-Max-Age" (toString config.maxAge)
        else hdrs
      let hdrs :=
        if config.allowCredentials = true then
          assocSet hdrs "Access-Control-Allow-Credentials" "true"
        else hdrs
      CorsResult.preflight 204 hdrs
    else
      let hdrs :=
        if config.exposeHeaders.length > 0 then
          assocSet hdrs "Access-Control-Expose-Headers" (", ".intercalate config.exposeHeaders)
        else hdrs
      let hdrs :=
        if config.allowCredentials = true then
          assocSet hdrs "Access-Control-Allow-Credentials" "true"
        else hdrs
      CorsResult.passthrough hdrs

/-- The Access-Control-Allow-Origin header of a CORS outcome. -/
def corsAllowOriginOf : CorsResult → Option String
  | CorsResult.passthrough hs => hs.lookup "Access-Control-Allow-Origin"
  | CorsResult.preflight _ hs => hs.lookup "Access-Control-Allow-Origin"
  | CorsResult.forbidden _ _ => none

/-! ## API artifact decoding (src/unnamed/part_003, package types)

The encoding/xml token stream is embedded as an explicit token list; each
token carries the line reported by decoder.InputPos after consuming it.
decoder.Token() returning an error (end of input) is the empty list. -/

/-- An encoding/xml token: StartElement (with attributes), EndElement, or
CharData. -/
inductive XmlToken where
  | start (name : String) (attrs : List (String × String)) (line : Nat)
  | close (name : String) (line : Nat)
  | chardata (s : String) (line : Nat)
deriving DecidableEq, Repr

/-- decoder.Skip: consume tokens until the end element matching the
just-consumed start element; none models a token-stream error
(exhaustion). -/
def skipToks : List XmlToken → Nat → Option (List XmlToken)
  | [], _ => none
  | t :: rest, depth =>
      match t with
      | .start _ _ _ => skipToks rest (depth + 1)
      | .close _ _ => if depth = 0 then some rest else skipToks rest (depth - 1)
      | .chardata _ _ => skipToks rest depth

theorem skipToks_length :
    ∀ toks depth rest, skipToks toks depth = some rest → rest.length < toks.length := by
  intro toks
  induction toks with
  | nil => intro d r h; simp [skipToks] at h
  | cons t ts ih =>
      intro d r h
      cases t with
      | start n a l =>
          simp only [skipToks] at h
          have := ih _ _ h
          simp only [List.length_cons]; omega
      | close n l =>
          simp only [skipToks] at h
          split at h
          · cases h; simp
          · have := ih _ _ h; simp only [List.length_cons]; omega
      | chardata s l =>
          simp only [skipToks] at h
          have := ih _ _ h
          simp only [List.length_cons]; omega

/-- An artifact mediator produced by sequence decoding; log is the only
mediator kind the decoder knows (part_003 lines 200-208 and 221-229). -/
inductive ArtifactMediator where
  | log (mediator : LogMediator)
deriving DecidableEq, Repr

/-- artifacts.Sequence: an ordered mediator list with its position. -/
structure Sequence where
  mediatorList : List ArtifactMediator
  position : Position
deriving DecidableEq, Repr

/-- The zero Go value of Sequence. -/
def zeroSequence : Sequence := ⟨[], zeroPosition⟩

/-- artifacts.Resource as used by the types decoder: methods and
uri-template attribute strings plus the two sequences. -/
structure Resource where
  methods : String
  uriTemplate : String
  inSequence : Sequence
  faultSequence : Sequence
deriving DecidableEq, Repr

/-- The zero Go value of Resource. -/
def zeroResource : Resource := ⟨"", "", zeroSequence, zeroSequence⟩

/-- artifacts.API (context, name, version, version-type, resources,
position). -/
structure API where
  context : String
  name : String
  version : String
  versionType : String
  resources : List Resource
  position : Position
deriving DecidableEq, Repr

/-- The zero Go value of API (returned on every error path). -/
def zeroAPI : API := ⟨"", "", "", "", [], zeroPosition⟩

/-- The attribute loop of Resource.Unmarshal (part_003 lines 125-132). -/
def captureResourceAttrs (attrs : List (String × String)) : Resource :=
  attrs.foldl
    (fun r kv =>
      if kv.1 = "methods" then { r with methods := kv.2 }
      else if kv.1 = "uri-template" then { r with uriTemplate := kv.2 }
      else r)
    zeroResource

/-- The attribute loop of the api case of API.Unmarshal (part_003 lines
59-71); the name attribute also becomes the position hierarchy. -/
def captureAPIAttrs (api : API) (attrs : List (String × String)) : API :=
  attrs.foldl
    (fun a kv =>
      if kv.1 = "context" then { a with context := kv.2 }
      else if kv.1 = "name" then
        { a with name := kv.2, position := { a.position with hierarchy := kv.2 } }
      else if kv.1 = "version" then { a with version := kv.2 }
      else if kv.1 = "version-type" then { a with versionType := kv.2 }
      else a)
    api

/-- Modelled from the spec: types.LogMediator.Unmarshal is not among the
sources; per section 4.4 a mediator element is decoded by consuming its
element and carries its position, the hierarchy breadcrumb gaining a
final log segment (as the repository tests assert). -/
def logMediatorUnmarshal (toks : List XmlToken) (attrs : List (String × String))
    (position : Position) : Option (LogMediator × List XmlToken) :=
  match skipToks toks 0 with
  | none => none
  | some rest =>
      some
        ({ category := (attrs.lookup "category").getD "",
           message := (attrs.lookup "message").getD "",
           position := { position with hierarchy := position.hierarchy ++ "->log" } },
         rest)

theorem logMediatorUnmarshal_length {toks : List XmlToken}
    {attrs : List (String × String)} {position : Position} {m : LogMediator}
    {rest : List XmlToken} (h : logMediatorUnmarshal toks attrs position = some (m, rest)) :
    rest.length < toks.length := by
  unfold logMediatorUnmarshal at h
  cases hs : skipToks toks 0 with
  | none => rw [hs] at h; cases h
  | some r => rw [hs] at h; cases h; exact skipToks_length _ _ _ hs

/-- Modelled from the spec: the loop of types.Sequence.unmarshal (not
among the sources); per section 4.4 the explicit sequence wrapper decodes
its mediator children in order, silently skipping unknown element names,
until the closing tag.  The fuel argument only bounds the recursion: the
loop consumes at least one token per iteration, so the entry point's
token count + 1 is never the limiting factor (fuel 0 behaves as token
exhaustion). -/
def sequenceUnmarshalLoop (position : Position) :
    Nat → List XmlToken → List ArtifactMediator → Option (Sequence × List XmlToken)
  | 0, _, _ => none
  | _ + 1, [], _ => none
  | fuel + 1, t :: rest, acc =>
      match t with
      | .start name attrs line =>
          if name = "log" then
            match logMediatorUnmarshal rest attrs { position with lineNo := line } with
            | none => none
            | some (m, rest2) =>
                sequenceUnmarshalLoop position fuel rest2 (acc ++ [ArtifactMediator.log m])
          else
            match skipToks rest 0 with
            | none => none
            | some rest2 => sequenceUnmarshalLoop position fuel rest2 acc
      | .close _ _ => some (⟨acc, position⟩, rest)
      | .chardata _ _ => sequenceUnmarshalLoop position fuel rest acc

/-- Modelled from the spec: types.Sequence.unmarshal entry - the
hierarchy gains a sequence segment (as the repository tests assert). -/
def sequenceUnmarshal (position : Position) (toks : List XmlToken) :
    Option (Sequence × List XmlToken) :=
  sequenceUnmarshalLoop { position with hierarchy := position.hierarchy ++ "->sequence" }
    (toks.length + 1) toks []

theorem sequenceUnmarshalLoop_length :
    ∀ fuel position toks acc seq rest,
      sequenceUnmarshalLoop position fuel toks acc = some (seq, rest) →
      rest.length ≤ toks.length := by
  intro fuel
  induction fuel with
  | zero => intro position toks acc seq rest h; simp [sequenceUnmarshalLoop] at h
  | succ n ih =>
      intro position toks acc seq rest h
      match toks with
      | [] => simp [sequenceUnmarshalLoop] at h
      | t :: r0 =>
          cases t with
          | start name attrs line =>
              simp only [sequenceUnmarshalLoop] at h
              split_ifs at h with hname
              · split at h
                · cases h
                · rename_i m rest2 heq
                  have h2 := logMediatorUnmarshal_length heq
                  have h1 := ih position rest2 _ _ _ h
                  simp only [List.length_cons]; omega
              · split at h
                · cases h
                · rename_i rest2 heq
                  have h2 := skipToks_length _ _ _ heq
                  have h1 := ih position rest2 _ _ _ h
                  simp only [List.length_cons]; omega
          | close cname cline =>
              simp only [sequenceUnmarshalLoop] at h
              cases h
              simp
          | chardata str cline =>
              simp only [sequenceUnmarshalLoop] at h
              have h1 := ih position r0 _ _ _ h
              simp only [List.length_cons]; omega

/-- OuterLoop of decodeSequence (part_003 lines 211-236): keep decoding
log mediators (any other start element is simply not handled, so its
child tokens are scanned too), stop successfully at the end element whose
name is the sequence type or when the tokens run out.  Fuel as in
sequenceUnmarshalLoop. -/
def decodeSeqOuter (position : Position) (sequenceType : String) :
    Nat → List XmlToken → List ArtifactMediator → Option (Sequence × List XmlToken)
  | 0, _, acc => some (⟨acc, position⟩, [])
  | _ + 1, [], acc => some (⟨acc, position⟩, [])
  | fuel + 1, t :: rest, acc =>
      match t with
      | .start name attrs line =>
          if name = "log" then
            match logMediatorUnmarshal rest attrs { position with lineNo := line } with
            | none => none
            | some (m, rest2) =>
                decodeSeqOuter position sequenceType fuel rest2 (acc ++ [ArtifactMediator.log m])
          else decodeSeqOuter position sequenceType fuel rest acc
      | .close name _ =>
          if name = sequenceType then some (⟨acc, position⟩, rest)
          else decodeSeqOuter position sequenceType fuel rest acc
      | .chardata _ _ => decodeSeqOuter position sequenceType fuel rest acc

theorem decodeSeqOuter_length :
    ∀ fuel position sequenceType toks acc seq rest,
      decodeSeqOuter position sequenceType fuel toks acc = some (seq, rest) →
      rest.length ≤ toks.length := by
  intro fuel
  induction fuel with
  | zero =>
      intro position st toks acc seq rest h
      simp only [decodeSeqOuter] at h; cases h; simp
  | succ n ih =>
      intro position st toks acc seq rest h
      match toks with
      | [] => simp only [decodeSeqOuter] at h; cases h; simp
      | t :: r0 =>
          cases t with
          | start name attrs line =>
              simp only [decodeSeqOuter] at h
              split_ifs at h with hname
              · split at h
                · cases h
                · rename_i m rest2 heq
                  have h2 := logMediatorUnmarshal_length heq
                  have h1 := ih position st rest2 _ _ _ h
                  simp only [List.length_cons]; omega
              · have h1 := ih position st r0 _ _ _ h
                simp only [List.length_cons]; omega
          | close cname cline =>
              simp only [decodeSeqOuter] at h
              split_ifs at h with hname
              · cases h; simp
              · have h1 := ih position st r0 _ _ _ h
                simp only [List.length_cons]; omega
          | chardata str cline =>
              simp only [decodeSeqOuter] at h
              have h1 := ih position st r0 _ _ _ h
              simp only [List.length_cons]; omega

/-- The leading loop of decodeSequence (part_003 lines 177-240): scan
until a start element; a sequence element delegates to the nested
Sequence decoding, anything else enters the direct-mediator format (with
the hierarchy defaulted to the sequence type when empty, and a first log
element decoded before the OuterLoop). -/
def decodeSeqFind (position : Position) (sequenceType : String) :
    List XmlToken → Option (Sequence × List XmlToken)
  | [] => none
  | t :: rest =>
      match t with
      | .start name attrs _ =>
          if name = "sequence" then sequenceUnmarshal position rest
          else
            let position2 :=
              if position.hierarchy = "" then { position with hierarchy := sequenceType }
              else position
            if name = "log" then
              match logMediatorUnmarshal rest attrs position2 with
              | none => none
              | some (m, rest2) =>
                  decodeSeqOuter position2 sequenceType (rest2.length + 1) rest2
                    [ArtifactMediator.log m]
            else decodeSeqOuter position2 sequenceType (rest.length + 1) rest []
      | .close _ _ => decodeSeqFind position sequenceType rest
      | .chardata _ _ => decodeSeqFind position sequenceType rest

theorem decodeSeqFind_length :
    ∀ position sequenceType toks seq rest,
      decodeSeqFind position sequenceType toks = some (seq, rest) →
      rest.length ≤ toks.length := by
  intro position st toks
  induction toks with
  | nil => intro seq rest h; simp [decodeSeqFind] at h
  | cons t r0 ih =>
      intro seq rest h
      cases t with
      | start name attrs line =>
          simp only [decodeSeqFind] at h
          split_ifs at h <;>
            first
            | (have h1 := sequenceUnmarshalLoop_length _ _ _ _ _ _ h
               simp only [List.length_cons]; omega)
            | (have h1 := decodeSeqOuter_length _ _ _ _ _ _ _ h
               simp only [List.length_cons]; omega)
            | (split at h
               next => cases h
               next m rest2 heq =>
                 have h2 := logMediatorUnmarshal_length heq
                 have h1 := decodeSeqOuter_length _ _ _ _ _ _ _ h
                 simp only [List.length_cons]; omega)
      | close cname cline =>
          simp only [decodeSeqFind] at h
          have h1 := ih _ _ h
          simp only [List.length_cons]; omega
      | chardata str cline =>
          simp only [decodeSeqFind] at h
          have h1 := ih _ _ h
          simp only [List.length_cons]; omega

/-- decodeSequence (part_003 lines 167-241): extend the hierarchy with
the resource's uri-template and the sequence type (inSequence /
faultSequence), record the current line, then decode either sequence
shape. -/
def decodeSequence (position : Position) (line : Nat) (sequenceType : String)
    (res : Resource) (toks : List XmlToken) : Option (Sequence × List XmlToken) :=
  let position2 : Position :=
    { fileName := position.fileName, lineNo := line,
      hierarchy := position.hierarchy ++ "->" ++ res.uriTemplate ++ "->" ++ sequenceType }
  decodeSeqFind position2 sequenceType toks

theorem decodeSequence_length {position : Position} {line : Nat}
    {sequenceType : String} {res : Resource} {toks : List XmlToken}
    {seq : Sequence} {rest : List XmlToken}
    (h : decodeSequence position line sequenceType res toks = some (seq, rest)) :
    rest.length ≤ toks.length :=
  decodeSeqFind_length _ _ _ _ _ h

/-- The child-element loop of Resource.Unmarshal (part_003 lines
135-163): inSequence/faultSequence children are decoded into the
resource, unknown elements are skipped; an end element only exits the
switch (the Go break), so the loop runs until the tokens are exhausted
and sibling elements after this resource are consumed as well.  Fuel as
in sequenceUnmarshalLoop. -/
def resourceUnmarshalLoop (position : Position) :
    Nat → List XmlToken → Resource → Option (Resource × List XmlToken)
  | 0, _, res => some (res, [])
  | _ + 1, [], res => some (res, [])
  | fuel + 1, t :: rest, res =>
      match t with
      | .start name _ line =>
          if name = "inSequence" ∨ name = "faultSequence" then
            match decodeSequence position line name res rest with
            | none => none
            | some (seq, rest2) =>
                if name = "inSequence" then
                  resourceUnmarshalLoop position fuel rest2 { res with inSequence := seq }
                else
                  resourceUnmarshalLoop position fuel rest2 { res with faultSequence := seq }
          else
            match skipToks rest 0 with
            | none => none
            | some rest2 => resourceUnmarshalLoop position fuel rest2 res
      | .close _ _ => resourceUnmarshalLoop position fuel rest res
      | .chardata _ _ => resourceUnmarshalLoop position fuel rest res

theorem resourceUnmarshalLoop_length :
    ∀ fuel position toks res res2 rest,
      resourceUnmarshalLoop position fuel toks res = some (res2, rest) →
      rest.length ≤ toks.length := by
  intro fuel
  induction fuel with
  | zero =>
      intro position toks res res2 rest h
      simp only [resourceUnmarshalLoop] at h; cases h; simp
  | succ n ih =>
      intro position toks res res2 rest h
      match toks with
      | [] => simp only [resourceUnmarshalLoop] at h; cases h; simp
      | t :: r0 =>
          cases t with
          | start name attrs line =>
              simp only [resourceUnmarshalLoop] at h
              split_ifs at h
              all_goals (
                split at h
                all_goals try cases h
                all_goals (
                  rename_i rest2 heq
                  first
                    | have h2 := decodeSequence_length heq
                    | have h2 := skipToks_length _ _ _ heq
                  have h1 := ih position rest2 _ _ _ h
                  simp only [List.length_cons]; omega))
          | close cname cline =>
              simp only [resourceUnmarshalLoop] at h
              have h1 := ih position r0 _ _ _ h
              simp only [List.length_cons]; omega
          | chardata str cline =>
              simp only [resourceUnmarshalLoop] at h
              have h1 := ih position r0 _ _ _ h
              simp only [List.length_cons]; omega

/-- Resource.Unmarshal (part_003 lines 122-165): capture the methods and
uri-template attributes, then process the child elements. -/
def resourceUnmarshal (startAttrs : List (String × String)) (position : Position)
    (toks : List XmlToken) : Option (Resource × List XmlToken) :=
  resourceUnmarshalLoop position (toks.length + 1) toks (captureResourceAttrs startAttrs)

/-- The token loop of API.Unmarshal (part_003 lines 50-89).  Two details
are decisive: the Go break in the EndElement case only exits the switch,
so the loop always runs to the end of the token stream; and the resource
case appends to the receiver's resource slice (api.Resources, the
`receiverResources` parameter - always empty at the call sites) instead
of the accumulated newAPI.Resources.  Fuel as in sequenceUnmarshalLoop. -/
def apiUnmarshalLoop (receiverResources : List Resource) :
    Nat → List XmlToken → API → API × Option String
  | 0, _, newAPI => (newAPI, none)
  | _ + 1, [], newAPI => (newAPI, none)
  | fuel + 1, t :: rest, newAPI =>
      match t with
      | .start name attrs _ =>
          if name = "api" then
            apiUnmarshalLoop receiverResources fuel rest (captureAPIAttrs newAPI attrs)
          else if name = "resource" then
            match resourceUnmarshal attrs newAPI.position rest with
            | none => (zeroAPI, some "XML syntax error")
            | some (res, rest2) =>
                apiUnmarshalLoop receiverResources fuel rest2
                  { newAPI with resources := receiverResources ++ [res] }
          else
            match skipToks rest 0 with
            | none => (zeroAPI, some "XML syntax error")
            | some rest2 => apiUnmarshalLoop receiverResources fuel rest2 newAPI
      | .close _ _ => apiUnmarshalLoop receiverResources fuel rest newAPI
      | .chardata _ _ => apiUnmarshalLoop receiverResources fuel rest newAPI

/-- The validation block of API.Unmarshal (part_003 lines 91-118): the
required context (present, leading slash), required name, the
version/version-type co-presence, and the version-type whitelist; every
violation returns the zero API with an error. -/
def apiValidate (newAPI : API) : API × Option String :=
  if newAPI.context = "" then (zeroAPI, some "API context is required")
  else if newAPI.context = "" ∨ newAPI.context.front ≠ '/' then
    (zeroAPI, some "API context must begin with / character")
  else if newAPI.name = "" then (zeroAPI, some "API name is required")
  else
    if (newAPI.version ≠ "") ≠ (newAPI.versionType ≠ "") then
      (zeroAPI, some "both version and version-type must be specified together")
    else if newAPI.versionType ≠ "" ∧ newAPI.versionType ≠ "context" ∧
        newAPI.versionType ≠ "url" then
      (zeroAPI, some ("version-type must be either context or url, got: " ++ newAPI.versionType))
    else (newAPI, none)

/-- API.Unmarshal (part_003 lines 46-119): run the token loop from the
given position (errors abort with the zero API), then validate. -/
def API.Unmarshal (receiverResources : List Resource) (toks : List XmlToken)
    (position : Position) : API × Option String :=
  match apiUnmarshalLoop receiverResources (toks.length + 1) toks
      { zeroAPI with position := position } with
  | (_, some e) => (zeroAPI, some e)
  | (newAPI, none) => apiValidate newAPI

/-! ### Fuel adequacy

Each decoder loop consumes at least one token per iteration, so any fuel
above the token count yields the same result: the token-count-plus-one
fuel supplied by the entry points never cuts an execution short. -/

theorem sequenceUnmarshalLoop_fuel (position : Position) :
    ∀ fuel fuel2 toks acc, toks.length < fuel → toks.length < fuel2 →
      sequenceUnmarshalLoop position fuel toks acc =
        sequenceUnmarshalLoop position fuel2 toks acc := by
  intro fuel
  induction fuel with
  | zero => intro fuel2 toks acc h1 h2; omega
  | succ n ih =>
      intro fuel2 toks acc h1 h2
      match fuel2, toks with
      | 0, toks => omega
      | m + 1, [] => rfl
      | m + 1, t :: r0 =>
          have hr0 : r0.length < n := by simp at h1; omega
          have hr0m : r0.length < m := by simp at h2; omega
          cases t with
          | start name attrs line =>
              simp only [sequenceUnmarshalLoop]
              split_ifs with hname
              · cases hl : logMediatorUnmarshal r0 attrs { position with lineNo := line } with
                | none => rfl
                | some pr =>
                    obtain ⟨m0, rest2⟩ := pr
                    have hlen := logMediatorUnmarshal_length hl
                    exact ih m rest2 _ (by omega) (by omega)
              · cases hs : skipToks r0 0 with
                | none => rfl
                | some rest2 =>
                    have hlen := skipToks_length _ _ _ hs
                    exact ih m rest2 _ (by omega) (by omega)
          | close cname cline => rfl
          | chardata s cline =>
              simp only [sequenceUnmarshalLoop]
              exact ih m r0 _ (by omega) (by omega)

theorem decodeSeqOuter_fuel (position : Position) (sequenceType : String) :
    ∀ fuel fuel2 toks acc, toks.length < fuel → toks.length < fuel2 →
      decodeSeqOuter position sequenceType fuel toks acc =
        decodeSeqOuter position sequenceType fuel2 toks acc := by
  intro fuel
  induction fuel with
  | zero => intro fuel2 toks acc h1 h2; omega
  | succ n ih =>
      intro fuel2 toks acc h1 h2
      match fuel2, toks with
      | 0, toks => omega
      | m + 1, [] => rfl
      | m + 1, t :: r0 =>
          have hr0 : r0.length < n := by simp at h1; omega
          have hr0m : r0.length < m := by simp at h2; omega
          cases t with
          | start name attrs line =>
              simp only [decodeSeqOuter]
              split_ifs with hname
              · cases hl : logMediatorUnmarshal r0 attrs { position with lineNo := line } with
                | none => rfl
                | some pr =>
                    obtain ⟨m0, rest2⟩ := pr
                    have hlen := logMediatorUnmarshal_length hl
                    exact ih m rest2 _ (by omega) (by omega)
              · exact ih m r0 _ (by omega) (by omega)
          | close cname cline =>
              simp only [decodeSeqOuter]
              split_ifs with hname
              · rfl
              · exact ih m r0 _ (by omega) (by omega)
          | chardata s cline =>
              simp only [decodeSeqOuter]
              exact ih m r0 _ (by omega) (by omega)

theorem resourceUnmarshalLoop_fuel (position : Position) :
    ∀ fuel fuel2 toks res, toks.length < fuel → toks.length < fuel2 →
      resourceUnmarshalLoop position fuel toks res =
        resourceUnmarshalLoop position fuel2 toks res := by
  intro fuel
  induction fuel with
  | zero => intro fuel2 toks res h1 h2; omega
  | succ n ih =>
      intro fuel2 toks res h1 h2
      match fuel2, toks with
      | 0, toks => omega
      | m + 1, [] => rfl
      | m + 1, t :: r0 =>
          have hr0 : r0.length < n := by simp at h1; omega
          have hr0m : r0.length < m := by simp at h2; omega
          cases t with
          | start name attrs line =>
              simp only [resourceUnmarshalLoop]
              split_ifs with hname hin
              · cases hd : decodeSequence position line name res r0 with
                | none => rfl
                | some pr =>
                    obtain ⟨seq, rest2⟩ := pr
                    have hlen := decodeSequence_length hd
                    exact ih m rest2 _ (by omega) (by omega)
              · cases hd : decodeSequence position line name res r0 with
                | none => rfl
                | some pr =>
                    obtain ⟨seq, rest2⟩ := pr
                    have hlen := decodeSequence_length hd
                    exact ih m rest2 _ (by omega) (by omega)
              · cases hs : skipToks r0 0 with
                | none => rfl
                | some rest2 =>
                    have hlen := skipToks_length _ _ _ hs
                    exact ih m rest2 _ (by omega) (by omega)
          | close cname cline =>
              simp only [resourceUnmarshalLoop]
              exact ih m r0 _ (by omega) (by omega)
          | chardata s cline =>
              simp only [resourceUnmarshalLoop]
              exact ih m r0 _ (by omega) (by omega)

theorem apiUnmarshalLoop_fuel (receiverResources : List Resource) :
    ∀ fuel fuel2 toks api, toks.length < fuel → toks.length < fuel2 →
      apiUnmarshalLoop receiverResources fuel toks api =
        apiUnmarshalLoop receiverResources fuel2 toks api := by
  intro fuel
  induction fuel with
  | zero => intro fuel2 toks api h1 h2; omega
  | succ n ih =>
      intro fuel2 toks api h1 h2
      match fuel2, toks with
      | 0, toks => omega
      | m + 1, [] => rfl
      | m + 1, t :: r0 =>
          have hr0 : r0.length < n := by simp at h1; omega
          have hr0m : r0.length < m := by simp at h2; omega
          cases t with
          | start name attrs line =>
              simp only [apiUnmarshalLoop]
              split_ifs with hapi hres
              · exact ih m r0 _ (by omega) (by omega)
              · cases hd : resourceUnmarshal attrs api.position r0 with
                | none => rfl
                | some pr =>
                    obtain ⟨res, rest2⟩ := pr
                    have hlen : rest2.length ≤ r0.length :=
                      resourceUnmarshalLoop_length _ _ _ _ _ _ hd
                    exact ih m rest2 _ (by omega) (by omega)
              · cases hs : skipToks r0 0 with
                | none => rfl
                | some rest2 =>
                    have hlen := skipToks_length _ _ _ hs
                    exact ih m rest2 _ (by omega) (by omega)
          | close cname cline =>
              simp only [apiUnmarshalLoop]
              exact ih m r0 _ (by omega) (by omega)
          | chardata s cline =>
              simp only [apiUnmarshalLoop]
              exact ih m r0 _ (by omega) (by omega)

/-! ## Claims -/

/-- C9: For every JSON payload and every query path, JSONPayload.Query
returns a non-nil error exactly when the path does not address an
existing value (a missing path is never a successful null result), and
conversely an existing value yields its typed (non-unknown) result with
no error. -/
theorem jsonQuery_missing_path_is_error (v : Json) (expression : String) :
    ((jsonQuery v expression).2 = none ↔ (jsonGet v expression).isSome = true) ∧
    (∀ r, jsonGet v expression = some r →
      jsonQuery v expression = (jsonTypedResult r, none) ∧
      (jsonTypedResult r).type ≠ ResultType.unknown) ∧
    (jsonGet v expression = none → (jsonQuery v expression).2.isSome = true) := by
  refine ⟨?_, ?_, ?_⟩
  · unfold jsonQuery
    cases h : jsonGet v expression <;> simp
  · intro r hr
    unfold jsonQuery
    rw [hr]
    refine ⟨rfl, ?_⟩
    cases r <;> simp [jsonTypedResult]
  · intro h
    unfold jsonQuery
    rw [h]
    simp

/-- Witness for C9 at a concrete payload and path. -/
theorem jsonQuery_missing_path_is_error_witness :
    jsonQuery (Json.obj [("a", Json.str "x")]) "a" =
      (jsonTypedResult (Json.str "x"), none) ∧
    (jsonTypedResult (Json.str "x")).type ≠ ResultType.unknown :=
  (jsonQuery_missing_path_is_error (Json.obj [("a", Json.str "x")]) "a").2.1
    (Json.str "x") (by rfl)

/-- C7: For every XPath query on an XML payload whose evaluation yields a
node-set, XMLPayload.Query collapses exactly one matching node to that
node's inner text as a string result, several matching nodes to the
ordered list of their inner texts as a nodeset result, and no matching
node to a nil-valued nodeset result with no error. -/
theorem xmlQuery_nodeset_collapse (doc : XmlDoc) (expression : String)
    (steps : List XPathStep) (hc : xpathCompile expression = some steps) :
    (xpathEval steps doc = [] →
      xmlQuery doc expression = (⟨QValue.qNull, ResultType.nodeset⟩, none)) ∧
    (∀ n, xpathEval steps doc = [n] →
      xmlQuery doc expression = (⟨QValue.qStr n.innerText, ResultType.string⟩, none)) ∧
    (∀ ns, xpathEval steps doc = ns → 2 ≤ ns.length →
      xmlQuery doc expression =
        (⟨QValue.qStrList (ns.map XNode.innerText), ResultType.nodeset⟩, none)) := by
  have hq : xmlQuery doc expression = xmlDispatch (XPathVal.nodes (xpathEval steps doc)) := by
    unfold xmlQuery; rw [hc]
  refine ⟨?_, ?_, ?_⟩
  · intro h; rw [hq, h]; rfl
  · intro n h; rw [hq, h]; rfl
  · intro ns h hlen
    rw [hq, h]
    match ns, hlen with
    | a :: b :: rest, _ => rfl

/-- Witness for C7: a document with two matching b nodes, one matching a
node, and an empty selection. -/
theorem xmlQuery_nodeset_collapse_witness :
    xmlQuery (XmlDoc.mk [XNode.elem "r" [] [XNode.elem "b" [] [XNode.textN "1"],
        XNode.elem "b" [] [XNode.textN "2"]]]) "/r/b" =
      (⟨QValue.qStrList ["1", "2"], ResultType.nodeset⟩, none) :=
  (xmlQuery_nodeset_collapse
      (XmlDoc.mk [XNode.elem "r" [] [XNode.elem "b" [] [XNode.textN "1"],
        XNode.elem "b" [] [XNode.textN "2"]]]) "/r/b"
      [XPathStep.child "r", XPathStep.child "b"] rfl).2.2
    [XNode.elem "b" [] [XNode.textN "1"], XNode.elem "b" [] [XNode.textN "2"]]
    rfl (by decide)

/-- LogMediator.Execute always reports continue with no error. -/
theorem logExecute_snd (lm : LogMediator) (context : MsgContext) :
    (lm.Execute context).2 = (true, none) := by
  unfold LogMediator.Execute
  cases h : context.properties.lookup "http_request_body" with
  | none => rfl
  | some pv =>
      cases pv with
      | pStr s => rfl
      | pStrMap m => rfl
      | bodyStream content readFails => cases readFails <;> rfl

/-- A sequence consisting only of log mediators always succeeds. -/
theorem executeSequence_logs_ok (lms : List LogMediator) :
    ∀ c : MsgContext, (executeSequence (lms.map LogMediator.Execute) c).2.2 = true := by
  induction lms with
  | nil => intro c; rfl
  | cons lm rest ih =>
      intro c
      have h := logExecute_snd lm c
      simp only [List.map_cons, executeSequence]
      have h1 : (lm.Execute c).2.1 = true := by rw [h]
      have h2 : (lm.Execute c).2.2 = none := by rw [h]
      simp only [h1, h2, and_self, if_true]
      exact ih _

/-- C10: LogMediator.Execute returns (true, nil) for every MsgContext -
including one whose buffered http_request_body read fails - so a
pipeline of log mediators always reaches Succeeded and never invokes the
fault-sequence. -/
theorem logMediator_never_faults (lm : LogMediator) (context : MsgContext) :
    (lm.Execute context).2.1 = true ∧ (lm.Execute context).2.2 = none ∧
    (∀ lms : List LogMediator, ∀ faultSeq : List Mediator, ∀ c : MsgContext,
      (mediate (lms.map LogMediator.Execute) faultSeq c).2.2.2 = MediationState.succeeded ∧
      (mediate (lms.map LogMediator.Execute) faultSeq c).2.2.1 = 0) := by
  have h := logExecute_snd lm context
  refine ⟨by rw [h], by rw [h], ?_⟩
  intro lms faultSeq c
  have hok := executeSequence_logs_ok lms c
  simp [mediate, hok]

theorem findUndeclared_none_iff (queryKeys : List String)
    (queryParameters : List (String × String)) :
    findUndeclared queryKeys queryParameters = none ↔
      ∀ k ∈ queryKeys, (queryParameters.lookup k).isSome = true := by
  induction queryKeys with
  | nil => simp [findUndeclared]
  | cons k ks ih =>
      simp only [findUndeclared]
      split_ifs with h
      · constructor
        · intro hn k1 hk1
          rcases List.mem_cons.mp hk1 with heq | hk1
          · subst heq; exact h
          · exact (ih.mp hn) k1 hk1
        · intro hall
          exact ih.mpr fun q hq => hall q (List.mem_cons_of_mem _ hq)
      · constructor
        · intro hc; cases hc
        · intro hall
          exact absurd (hall k (List.mem_cons_self _ _)) h

theorem findUndeclared_some {queryKeys : List String}
    {queryParameters : List (String × String)} {k : String}
    (h : findUndeclared queryKeys queryParameters = some k) :
    k ∈ queryKeys ∧ queryParameters.lookup k = none := by
  induction queryKeys with
  | nil => simp [findUndeclared] at h
  | cons k0 ks ih =>
      simp only [findUndeclared] at h
      split_ifs at h with h0
      · obtain ⟨hm, hl⟩ := ih h
        exact ⟨List.mem_cons_of_mem _ hm, hl⟩
      · cases h
        refine ⟨List.mem_cons_self _ _, ?_⟩
        cases hl : queryParameters.lookup k with
        | none => rfl
        | some v => rw [hl] at h0; simp at h0

theorem findMissing_none_iff (queryParameters : List (String × String))
    (queryKeys : List String) :
    findMissing queryParameters queryKeys = none ↔
      ∀ p ∈ queryParameters, queryKeys.contains p.1 = true := by
  induction queryParameters with
  | nil => simp [findMissing]
  | cons p ps ih =>
      obtain ⟨k0, v0⟩ := p
      simp only [findMissing]
      split_ifs with h
      · simp only [List.mem_cons]
        constructor
        · intro hn q hq
          rcases hq with hq | hq
          · cases hq; exact h
          · exact (ih.mp hn) q hq
        · intro hall
          exact ih.mpr fun q hq => hall q (Or.inr hq)
      · simp only [List.mem_cons]
        constructor
        · intro hc; cases hc
        · intro hall
          exact absurd (hall (k0, v0) (Or.inl rfl)) h

theorem findMissing_some {queryParameters : List (String × String)}
    {queryKeys : List String} {k : String}
    (h : findMissing queryParameters queryKeys = some k) :
    (∃ v, (k, v) ∈ queryParameters) ∧ queryKeys.contains k = false := by
  induction queryParameters with
  | nil => simp [findMissing] at h
  | cons p ps ih =>
      obtain ⟨k0, v0⟩ := p
      simp only [findMissing] at h
      split_ifs at h with h0
      · obtain ⟨⟨v, hv⟩, hnc⟩ := ih h
        exact ⟨⟨v, List.mem_cons_of_mem _ hv⟩, hnc⟩
      · cases h
        exact ⟨⟨v0, List.mem_cons_self _ _⟩, by simpa using h0⟩

/-- C3: For a resource with declared query parameters, the request
reaches the resource handler exactly when its query-key set equals the
declared key set: some undeclared request key forces a 400 "Unsupported
query parameter" rejection, and (with all request keys declared) some
missing declared key forces a 400 "Missing required query parameter"
rejection; a resource without declared query parameters passes every
request through unchecked. -/
theorem queryParam_key_set_contract (queryParameters : List (String × String))
    (queryKeys : List String) :
    (queryParameters = [] →
      queryParamMiddleware queryParameters queryKeys = MWResult.pass) ∧
    (queryParameters ≠ [] →
      (queryParamMiddleware queryParameters queryKeys = MWResult.pass ↔
        ((∀ k ∈ queryKeys, (queryParameters.lookup k).isSome = true) ∧
         (∀ p ∈ queryParameters, queryKeys.contains p.1 = true)))) ∧
    (queryParameters ≠ [] →
      ¬(∀ k ∈ queryKeys, (queryParameters.lookup k).isSome = true) →
      ∃ k ∈ queryKeys, queryParameters.lookup k = none ∧
        queryParamMiddleware queryParameters queryKeys =
          MWResult.reject 400 ("Unsupported query parameter: " ++ k)) ∧
    (queryParameters ≠ [] →
      (∀ k ∈ queryKeys, (queryParameters.lookup k).isSome = true) →
      ¬(∀ p ∈ queryParameters, queryKeys.contains p.1 = true) →
      ∃ k, (∃ v, (k, v) ∈ queryParameters) ∧ queryKeys.contains k = false ∧
        queryParamMiddleware queryParameters queryKeys =
          MWResult.reject 400 ("Missing required query parameter: " ++ k)) := by
  have hlen0 : queryParameters ≠ [] → ¬queryParameters.length = 0 := by
    intro hne hz; exact hne (List.length_eq_zero.mp hz)
  refine ⟨?_, ?_, ?_, ?_⟩
  · intro h; subst h; rfl
  · intro hne
    unfold queryParamMiddleware
    rw [if_neg (hlen0 hne)]
    constructor
    · intro hp
      cases hu : findUndeclared queryKeys queryParameters with
      | some k => rw [hu] at hp; cases hp
      | none =>
          rw [hu] at hp
          cases hm : findMissing queryParameters queryKeys with
          | some k => rw [hm] at hp; cases hp
          | none =>
              exact ⟨(findUndeclared_none_iff _ _).mp hu,
                     (findMissing_none_iff _ _).mp hm⟩
    · intro ⟨h1, h2⟩
      rw [(findUndeclared_none_iff _ _).mpr h1, (findMissing_none_iff _ _).mpr h2]
  · intro hne hnall
    cases hu : findUndeclared queryKeys queryParameters with
    | none => exact absurd ((findUndeclared_none_iff _ _).mp hu) hnall
    | some k =>
        obtain ⟨hmem, hnone⟩ := findUndeclared_some hu
        refine ⟨k, hmem, hnone, ?_⟩
        unfold queryParamMiddleware
        rw [if_neg (hlen0 hne), hu]
  · intro hne hall hnall
    cases hm : findMissing queryParameters queryKeys with
    | none => exact absurd ((findMissing_none_iff _ _).mp hm) hnall
    | some k =>
        obtain ⟨hv, hnc⟩ := findMissing_some hm
        refine ⟨k, hv, hnc, ?_⟩
        unfold queryParamMiddleware
        rw [if_neg (hlen0 hne), (findUndeclared_none_iff _ _).mpr hall, hm]

/-- Witness for C3 at the spec's example: declared {id}, request ?id=5
passes, ?id=5&extra=1 is rejected 400 unsupported, ? (missing id) is
rejected 400 missing. -/
theorem queryParam_key_set_contract_witness :
    queryParamMiddleware [("id", "id")] ["id"] = MWResult.pass ∧
    (∃ k ∈ ["id", "extra"], List.lookup k [("id", "id")] = none ∧
      queryParamMiddleware [("id", "id")] ["id", "extra"] =
        MWResult.reject 400 ("Unsupported query parameter: " ++ k)) ∧
    (∃ k, (∃ v, (k, v) ∈ [("id", "id")]) ∧ List.contains ([] : List String) k = false ∧
      queryParamMiddleware [("id", "id")] [] =
        MWResult.reject 400 ("Missing required query parameter: " ++ k)) :=
  ⟨((queryParam_key_set_contract [("id", "id")] ["id"]).2.1 (by decide)).mpr
      (by decide),
   (queryParam_key_set_contract [("id", "id")] ["id", "extra"]).2.2.1 (by decide)
      (by decide),
   (queryParam_key_set_contract [("id", "id")] []).2.2.2 (by decide) (by decide)
      (by decide)⟩

theorem executeSequence_stops (good : List Mediator) (context : MsgContext)
    (hgood : AllContinue good context) (bad : Mediator) (rest : List Mediator) :
    ∀ c1 cont err, bad (applyOk good context) = (c1, cont, err) →
      (cont = false ∨ err ≠ none) →
      executeSequence (good ++ bad :: rest) context = (c1, good.length + 1, false) := by
  induction hgood with
  | nil c =>
      intro c1 cont err hbad hfail
      have hap : applyOk [] c = c := rfl
      rw [hap] at hbad
      have hnc : ¬(cont = true ∧ err = none) := by
        rcases hfail with h | h
        · intro hc; rw [h] at hc; cases hc.1
        · intro hc; exact h hc.2
      simp only [List.nil_append, executeSequence, hbad]
      rw [if_neg hnc]
      simp
  | cons hm hms ih =>
      rename_i m ms c c'
      intro c1 cont err hbad hfail
      have hap : applyOk (m :: ms) c = applyOk ms c' := by
        simp only [applyOk, hm]
      rw [hap] at hbad
      have hrec := ih c1 cont err hbad hfail
      simp only [List.cons_append, executeSequence, hm]
      simp [hrec]

/-- C2: If every mediator before some failing mediator continues and that
mediator signals continue=false or a non-nil error, the engine executes
exactly the mediators up to and including it - later in-sequence
mediators never run, whatever they are - and then runs the
fault-sequence against the MessageContext as mutated by the executed
mediators, ending Faulted.  (Instantiating good=[m1], bad=m2, rest
arbitrary gives the spec's two-mediator scenario: both execute, then the
fault-sequence is invoked.) -/
theorem mediation_stops_at_failure
    (good : List Mediator) (bad : Mediator) (rest faultSeq : List Mediator)
    (context c1 : MsgContext) (cont : Bool) (err : Option String)
    (hgood : AllContinue good context)
    (hbad : bad (applyOk good context) = (c1, cont, err))
    (hfail : cont = false ∨ err ≠ none) :
    executeSequence (good ++ bad :: rest) context = (c1, good.length + 1, false) ∧
    mediate (good ++ bad :: rest) faultSeq context =
      ((executeSequence faultSeq c1).1, good.length + 1,
       (executeSequence faultSeq c1).2.1, MediationState.faulted) := by
  have hexec := executeSequence_stops good context hgood bad rest c1 cont err hbad hfail
  refine ⟨hexec, ?_⟩
  unfold mediate
  simp [hexec]

/-- Mediator that records itself in the context and continues. -/
def wMedOk (tag : String) : Mediator :=
  fun c => ({ c with properties := assocSet c.properties tag (PropValue.pStr "ran") },
            true, none)

/-- Mediator returning (false, nil). -/
def wMedStop : Mediator := fun c => (c, false, none)

/-- An empty message context for the mediation witness. -/
def wCtx : MsgContext := ⟨[], [], none, ""⟩

/-- The context after the first witness mediator ran. -/
def wCtx1 : MsgContext := ⟨[("m1", PropValue.pStr "ran")], [], none, ""⟩

/-- Witness for C2: first mediator returns (true,nil), second (false,nil):
exactly two execute, the third never runs, and the fault-sequence runs on
the mutated context. -/
theorem mediation_stops_at_failure_witness :
    executeSequence ([wMedOk "m1"] ++ wMedStop :: [wMedOk "m3"]) wCtx = (wCtx1, 2, false) ∧
    mediate ([wMedOk "m1"] ++ wMedStop :: [wMedOk "m3"]) [wMedOk "fault"] wCtx =
      ((executeSequence [wMedOk "fault"] wCtx1).1, 2,
       (executeSequence [wMedOk "fault"] wCtx1).2.1, MediationState.faulted) :=
  mediation_stops_at_failure [wMedOk "m1"] wMedStop [wMedOk "m3"] [wMedOk "fault"]
    wCtx wCtx1 false none
    (AllContinue.cons rfl (AllContinue.nil _)) rfl (Or.inl rfl)

theorem assocSet_lookup_other {α : Type} (ps : List (String × α)) (k k' : String)
    (v : α) (h : (k == k') = false) :
    (assocSet ps k' v).lookup k = ps.lookup k := by
  induction ps with
  | nil => simp [assocSet, List.lookup, h]
  | cons p ps ih =>
      obtain ⟨k0, v0⟩ := p
      simp only [assocSet]
      split_ifs with h0
      · subst h0
        simp [List.lookup, h]
      · simp [List.lookup, ih]

/-- C4: For an enabled CORS configuration and a request with an allowed,
present Origin header, the middleware's Access-Control-Allow-Origin is
the literal request origin whenever credentials are allowed, and
otherwise is the wildcard exactly when the allow-list contains "*" (the
literal origin otherwise). -/
theorem cors_allow_origin_selection (isOriginAllowed : String → Bool)
    (config : CORSConfig) (method origin requestHeaders : String)
    (henabled : config.enabled = true) (horigin : origin ≠ "")
    (hallowed : isOriginAllowed origin = true) :
    corsAllowOriginOf (corsMiddleware isOriginAllowed config method origin requestHeaders) =
      some (if config.allowCredentials = true then origin
            else if config.allowOrigins.contains "*" then "*" else origin) ∧
    (config.allowCredentials = true →
      corsAllowOriginOf (corsMiddleware isOriginAllowed config method origin requestHeaders) =
        some origin) ∧
    (config.allowCredentials = false →
      (config.allowOrigins.contains "*" = true →
        corsAllowOriginOf (corsMiddleware isOriginAllowed config method origin requestHeaders) =
          some "*") ∧
      (config.allowOrigins.contains "*" = false →
        corsAllowOriginOf (corsMiddleware isOriginAllowed config method origin requestHeaders) =
          some origin)) := by
  have hmain : corsAllowOriginOf
      (corsMiddleware isOriginAllowed config method origin requestHeaders) =
      some (if config.allowCredentials = true then origin
            else if config.allowOrigins.contains "*" then "*" else origin) := by
    unfold corsMiddleware
    rw [if_neg (by simp [henabled]), if_neg (by simp [horigin]),
      if_neg (by simp [hallowed])]
    have hcred : (config.allowCredentials = true ∧ origin ≠ "") ↔
        config.allowCredentials = true := by
      constructor
      · exact fun hc => hc.1
      · exact fun hc => ⟨hc, horigin⟩
    split_ifs with h1 h2 h3 <;>
      simp_all [corsAllowOriginOf, assocSet_lookup_other, assocSet, List.lookup]
  refine ⟨hmain, ?_, ?_⟩
  · intro hc; rw [hmain, if_pos hc]
  · intro hc
    constructor
    · intro hw
      rw [hmain, if_neg (by simp [hc]), if_pos hw]
    · intro hw
      rw [hmain, if_neg (by simp [hc]), if_neg (by simpa using hw)]

/-- Witness for C4: allow-list containing the wildcard with credentials
allowed still echoes the literal origin. -/
theorem cors_allow_origin_selection_witness :
    corsAllowOriginOf
        (corsMiddleware (fun _ => true)
          ⟨true, ["*"], [], [], [], true, 0⟩ "GET" "http://a.com" "") =
      some "http://a.com" :=
  (cors_allow_origin_selection (fun _ => true)
      ⟨true, ["*"], [], [], [], true, 0⟩ "GET" "http://a.com" ""
      rfl (by decide) rfl).2.1 rfl

/-- The raw JSON payload of the spec's chaining example. -/
def c5RawJson : String := "\x7b\"inner\":\"<a>5</a>\"\x7d"

/-- The parsed payload object of the spec's chaining example. -/
def c5Payload : PayloadObject :=
  PayloadObject.jsonP c5RawJson (Json.obj [("inner", Json.str "<a>5</a>")])

/-- C5: A pipe segment whose transform is extractAsXML or extractAsJSON
re-parses the previous step's string result into a new payload of that
format via the factory and evaluates the segment's query against that new
payload - the active payload carried into the step plays no role in the
outcome; and on the JSON payload of the spec's example the piped
expression evaluates to the string "5". -/
theorem evaluate_pipe_reparses
    (fullExpression : String) (currentResult : QueryResult)
    (trimmedPart prevStr e op fmt : String) (p2 : PayloadObject) (r : QueryResult)
    (hop : (op = "extractAsXML" ∧ fmt = "application/xml") ∨
           (op = "extractAsJSON" ∧ fmt = "application/json"))
    (hstr : currentResult.value = QValue.qStr prevStr)
    (hfields : goFields trimmedPart = [op, e])
    (hcreate : CreatePayload prevStr fmt = Except.ok p2)
    (heval : evaluateSingleExpression p2 e = (r, none)) :
    (∀ activePayload : PayloadObject,
      evalPipeStep fullExpression activePayload currentResult trimmedPart =
        Except.ok (p2, r)) ∧
    CreatePayload c5RawJson "application/json" = Except.ok c5Payload ∧
    Evaluate c5Payload "jsonpath:inner | extractAsXML xpath:/a/text()" =
      (⟨QValue.qStr "5", ResultType.string⟩, none) := by
  refine ⟨?_, by rfl, by rfl⟩
  intro activePayload
  have htail : " ".intercalate [e] = e := by
    unfold String.intercalate String.intercalate.go
    simp
  unfold evalPipeStep
  rw [hstr]
  rcases hop with ⟨hop1, hfmt⟩ | ⟨hop1, hfmt⟩ <;> subst hop1 <;> subst hfmt <;>
    simp [hfields, htail, hcreate, heval]

/-- Witness for C5 at the spec's example pipe segment. -/
theorem evaluate_pipe_reparses_witness :
    evalPipeStep "jsonpath:inner | extractAsXML xpath:/a/text()" c5Payload
        ⟨QValue.qStr "<a>5</a>", ResultType.string⟩ "extractAsXML xpath:/a/text()" =
      Except.ok (PayloadObject.xmlP "<a>5</a>" ⟨[XNode.elem "a" [] [XNode.textN "5"]]⟩,
        ⟨QValue.qStr "5", ResultType.string⟩) ∧
    Evaluate c5Payload "jsonpath:inner | extractAsXML xpath:/a/text()" =
      (⟨QValue.qStr "5", ResultType.string⟩, none) := by
  have h := evaluate_pipe_reparses "jsonpath:inner | extractAsXML xpath:/a/text()"
    ⟨QValue.qStr "<a>5</a>", ResultType.string⟩ "extractAsXML xpath:/a/text()"
    "<a>5</a>" "xpath:/a/text()" "extractAsXML" "application/xml"
    (PayloadObject.xmlP "<a>5</a>" ⟨[XNode.elem "a" [] [XNode.textN "5"]]⟩)
    ⟨QValue.qStr "5", ResultType.string⟩
    (Or.inl ⟨rfl, rfl⟩) rfl (by rfl) (by rfl) (by rfl)
  exact ⟨h.1 c5Payload, h.2.2⟩

/-- A string cannot carry both expression markers (their first characters
differ). -/
theorem not_xpath_and_jsonpath (s : String) :
    goStartsWith s xpathPref = true → goStartsWith s jsonpathPref = true → False := by
  intro h1 h2
  unfold goStartsWith at h1 h2
  unfold xpathPref at h1
  unfold jsonpathPref at h2
  cases hd : s.data with
  | nil => rw [hd] at h1; simp [goHasPref] at h1
  | cons c cs =>
      rw [hd] at h1 h2
      simp only [show ("xpath:" : String).data = ['x', 'p', 'a', 't', 'h', ':'] from rfl,
        show ("jsonpath:" : String).data = ['j', 's', 'o', 'n', 'p', 'a', 't', 'h', ':'] from rfl,
        goHasPref, Bool.and_eq_true, decide_eq_true_eq] at h1 h2
      obtain ⟨hx, _⟩ := h1
      obtain ⟨hj, _⟩ := h2
      rw [← hx] at hj
      exact absurd hj (by decide)

/-- Unfolding of Evaluate once the pipe split is known. -/
theorem Evaluate_cons (pld : PayloadObject) (fullExpr firstPart : String)
    (restParts : List String)
    (h : goSplitChar '|' fullExpr = firstPart :: restParts) :
    Evaluate pld fullExpr =
      match evaluateSingleExpression pld (goTrim firstPart) with
      | (_, some e) =>
          (emptyQR, some (EvalErr.wrapped ("error in expression part " ++ goTrim firstPart) e))
      | (r0, none) => evalPipeLoop fullExpr pld r0 restParts := by
  unfold Evaluate
  rw [h]

/-- C6: Evaluate classifies its failures: an xpath: first segment against
a JSON payload (or jsonpath: against an XML payload) fails with the
invalid-payload-for-operation error - independently of the query, so
before any query runs; a pipe segment whose previous result is not a
string fails with the "requires string input" evaluation error; an
unknown pipe operation name fails with the distinct unsupported
expression error, as does an unprefixed bare expression. -/
theorem evaluate_error_classification :
    (∀ (raw : String) (v : Json) (fullExpr firstPart : String)
        (restParts : List String),
      goSplitChar '|' fullExpr = firstPart :: restParts →
      goStartsWith (goTrim firstPart) xpathPref = true →
      (Evaluate (PayloadObject.jsonP raw v) fullExpr).2 =
        some (EvalErr.wrapped ("error in expression part " ++ goTrim firstPart)
          (EvalErr.invalidPayloadForOperation "XPath" "application/json"
            "XPath requires XML payload"))) ∧
    (∀ (raw : String) (doc : XmlDoc) (fullExpr firstPart : String)
        (restParts : List String),
      goSplitChar '|' fullExpr = firstPart :: restParts →
      goStartsWith (goTrim firstPart) jsonpathPref = true →
      (Evaluate (PayloadObject.xmlP raw doc) fullExpr).2 =
        some (EvalErr.wrapped ("error in expression part " ++ goTrim firstPart)
          (EvalErr.invalidPayloadForOperation "JSONPath" "application/xml"
            "JSONPath requires JSON payload"))) ∧
    (∀ (fullExpression : String) (activePayload : PayloadObject)
        (currentResult : QueryResult) (trimmedPart : String),
      (∀ s, currentResult.value ≠ QValue.qStr s) →
      evalPipeStep fullExpression activePayload currentResult trimmedPart =
        Except.error (EvalErr.evalFailed fullExpression
          ("pipe operation " ++ trimmedPart ++ " requires string input from previous step"))) ∧
    (∀ (fullExpression : String) (activePayload : PayloadObject)
        (currentResult : QueryResult) (trimmedPart s op e : String),
      currentResult.value = QValue.qStr s →
      goFields trimmedPart = [op, e] →
      op ≠ "extractAsJSON" → op ≠ "extractAsXML" →
      evalPipeStep fullExpression activePayload currentResult trimmedPart =
        Except.error (EvalErr.unsupportedExpr ("unknown pipe operation: " ++ op))) ∧
    (∀ (pld : PayloadObject) (part : String),
      goStartsWith part xpathPref = false →
      goStartsWith part jsonpathPref = false →
      evaluateSingleExpression pld part =
        (emptyQR, some (EvalErr.unsupportedExpr part))) ∧
    (∀ (pld : PayloadObject) (fullExpr firstPart : String) (restParts : List String),
      goSplitChar '|' fullExpr = firstPart :: restParts →
      goStartsWith (goTrim firstPart) xpathPref = false →
      goStartsWith (goTrim firstPart) jsonpathPref = false →
      (Evaluate pld fullExpr).2 =
        some (EvalErr.wrapped ("error in expression part " ++ goTrim firstPart)
          (EvalErr.unsupportedExpr (goTrim firstPart)))) := by
  refine ⟨?_, ?_, ?_, ?_, ?_, ?_⟩
  · intro raw v fullExpr firstPart restParts hsplit hpref
    rw [Evaluate_cons _ _ _ _ hsplit]
    unfold evaluateSingleExpression
    rw [if_pos hpref,
      if_pos (show (PayloadObject.jsonP raw v).getContentType ≠ "application/xml" ∧
        (PayloadObject.jsonP raw v).getContentType ≠ "text/xml" by
          exact ⟨by simp [PayloadObject.getContentType], by simp [PayloadObject.getContentType]⟩)]
    rfl
  · intro raw doc fullExpr firstPart restParts hsplit hpref
    rw [Evaluate_cons _ _ _ _ hsplit]
    unfold evaluateSingleExpression
    rw [if_neg (fun hc => not_xpath_and_jsonpath _ hc hpref),
      if_pos hpref,
      if_pos (show (PayloadObject.xmlP raw doc).getContentType ≠ "application/json" by
        simp [PayloadObject.getContentType])]
    rfl
  · intro fullExpression activePayload currentResult trimmedPart hns
    unfold evalPipeStep
    cases hv : currentResult.value with
    | qStr s => exact absurd hv (hns s)
    | qNull => rfl
    | qBool b => rfl
    | qNum n => rfl
    | qArr xs => rfl
    | qObj fs => rfl
    | qStrList l => rfl
  · intro fullExpression activePayload currentResult trimmedPart s op e
      hstr hfields hop1 hop2
    unfold evalPipeStep
    rw [hstr]
    simp [hfields, hop1, hop2]
  · intro pld part h1 h2
    unfold evaluateSingleExpression
    rw [if_neg (by simp [h1]), if_neg (by simp [h2])]
  · intro pld fullExpr firstPart restParts hsplit h1 h2
    rw [Evaluate_cons _ _ _ _ hsplit]
    unfold evaluateSingleExpression
    rw [if_neg (by simp [h1]), if_neg (by simp [h2])]

/-- Witness for C6: each failure class at a concrete input. -/
theorem evaluate_error_classification_witness :
    (Evaluate (PayloadObject.jsonP "1" (Json.num "1")) "xpath:/a").2 =
      some (EvalErr.wrapped ("error in expression part " ++ goTrim "xpath:/a")
        (EvalErr.invalidPayloadForOperation "XPath" "application/json"
          "XPath requires XML payload")) ∧
    (Evaluate (PayloadObject.xmlP "<a/>" ⟨[XNode.elem "a" [] []]⟩) "jsonpath:a").2 =
      some (EvalErr.wrapped ("error in expression part " ++ goTrim "jsonpath:a")
        (EvalErr.invalidPayloadForOperation "JSONPath" "application/xml"
          "JSONPath requires JSON payload")) ∧
    evalPipeStep "f" c5Payload ⟨QValue.qNull, ResultType.scalar⟩ "extractAsJSON x" =
      Except.error (EvalErr.evalFailed "f"
        ("pipe operation " ++ "extractAsJSON x" ++ " requires string input from previous step")) ∧
    evalPipeStep "f" c5Payload ⟨QValue.qStr "s", ResultType.string⟩ "frobnicate x" =
      Except.error (EvalErr.unsupportedExpr ("unknown pipe operation: " ++ "frobnicate")) ∧
    evaluateSingleExpression c5Payload "plain" =
      (emptyQR, some (EvalErr.unsupportedExpr "plain")) ∧
    (Evaluate c5Payload "plain").2 =
      some (EvalErr.wrapped ("error in expression part " ++ goTrim "plain")
        (EvalErr.unsupportedExpr (goTrim "plain"))) :=
  ⟨evaluate_error_classification.1 "1" (Json.num "1") "xpath:/a" "xpath:/a" []
      (by rfl) (by rfl),
   evaluate_error_classification.2.1 "<a/>" ⟨[XNode.elem "a" [] []]⟩ "jsonpath:a"
      "jsonpath:a" [] (by rfl) (by rfl),
   evaluate_error_classification.2.2.1 "f" c5Payload ⟨QValue.qNull, ResultType.scalar⟩
      "extractAsJSON x" (by intro s h; cases h),
   evaluate_error_classification.2.2.2.1 "f" c5Payload ⟨QValue.qStr "s", ResultType.string⟩
      "frobnicate x" "s" "frobnicate" "x" rfl (by rfl) (by decide) (by decide),
   evaluate_error_classification.2.2.2.2.1 c5Payload "plain" (by rfl) (by rfl),
   evaluate_error_classification.2.2.2.2.2 c5Payload "plain" "plain" []
      (by rfl) (by rfl) (by rfl)⟩

/-- True for a resource start element token. -/
def isResourceStart : XmlToken → Bool
  | .start name _ _ => name = "resource"
  | _ => false

/-- Token stream of a well-formed API document declaring two resources. -/
def twoResourceToks : List XmlToken :=
  [ .start "api" [("context", "/test"), ("name", "TestAPI")] 1,
    .start "resource" [("methods", "GET"), ("uri-template", "/r1")] 2,
    .close "resource" 2,
    .start "resource" [("methods", "POST"), ("uri-template", "/r2")] 3,
    .close "resource" 3,
    .close "api" 4 ]

/-- C1 (code bug evidence): on a valid API document declaring TWO
resources, API.Unmarshal succeeds but the returned API holds only ONE
resource - the first - because the EndElement break in
Resource.Unmarshal only exits the switch (so the first resource's
decoding skips its sibling) and the resource case appends to the
receiver's empty slice.  The claim's required resource count (2) is not
reproduced. -/
theorem apiUnmarshal_drops_second_resource :
    (twoResourceToks.filter isResourceStart).length = 2 ∧
    (API.Unmarshal [] twoResourceToks zeroPosition).2 = none ∧
    (API.Unmarshal [] twoResourceToks zeroPosition).1.resources.length = 1 ∧
    (API.Unmarshal [] twoResourceToks zeroPosition).1.resources.map Resource.methods
      = ["GET"] ∧
    (API.Unmarshal [] twoResourceToks zeroPosition).1.resources.map Resource.uriTemplate
      = ["/r1"] := by
  refine ⟨by decide, by decide, by decide, by decide, by decide⟩

/-- C8: Whenever the parse phase of API.Unmarshal yields an API whose
context is missing, whose context lacks the leading slash, whose name is
missing, which sets exactly one of version/version-type, or whose
version-type is outside {context, url}, Unmarshal returns an error and
the zero-valued API; and whenever the parse phase itself fails, Unmarshal
also returns the zero-valued API with the error - no partial API ever
escapes. -/
theorem API_Unmarshal_parse_ok (recv : List Resource) (toks : List XmlToken)
    (position : Position) (a : API)
    (h : apiUnmarshalLoop recv (toks.length + 1) toks
      { zeroAPI with position := position } = (a, none)) :
    API.Unmarshal recv toks position = apiValidate a := by
  unfold API.Unmarshal
  rw [h]

theorem API_Unmarshal_parse_err (recv : List Resource) (toks : List XmlToken)
    (position : Position) (a : API) (e : String)
    (h : apiUnmarshalLoop recv (toks.length + 1) toks
      { zeroAPI with position := position } = (a, some e)) :
    API.Unmarshal recv toks position = (zeroAPI, some e) := by
  unfold API.Unmarshal
  rw [h]

theorem apiUnmarshal_rejects_invalid (recv : List Resource) (toks : List XmlToken)
    (position : Position) (a : API)
    (hparse : apiUnmarshalLoop recv (toks.length + 1) toks
      { zeroAPI with position := position } = (a, none))
    (hbad : a.context = "" ∨ a.context.front ≠ '/' ∨ a.name = "" ∨
            ((a.version ≠ "") ≠ (a.versionType ≠ "")) ∨
            (a.versionType ≠ "" ∧ a.versionType ≠ "context" ∧ a.versionType ≠ "url")) :
    (∃ msg, API.Unmarshal recv toks position = (zeroAPI, some msg)) ∧
    (∀ toks2 a2 e2, apiUnmarshalLoop recv (toks2.length + 1) toks2
        { zeroAPI with position := position } = (a2, some e2) →
      API.Unmarshal recv toks2 position = (zeroAPI, some e2)) := by
  constructor
  · rw [API_Unmarshal_parse_ok recv toks position a hparse]
    unfold apiValidate
    split_ifs with h1 h2 h3 h4 h5
    · exact ⟨_, rfl⟩
    · exact ⟨_, rfl⟩
    · exact ⟨_, rfl⟩
    · exact ⟨_, rfl⟩
    · exact ⟨_, rfl⟩
    · exfalso
      rcases hbad with h | h | h | h | h
      · exact h1 h
      · exact h2 (Or.inr h)
      · exact h3 h
      · exact h4 h
      · exact h5 h
  · intro toks2 a2 e2 hp2
    exact API_Unmarshal_parse_err recv toks2 position a2 e2 hp2

/-- The parse-phase result of a document missing the context attribute. -/
def noContextAPI : API :=
  { context := "", name := "X", version := "", versionType := "",
    resources := [], position := ⟨"", 0, "X"⟩ }

/-- Witness for C8: a document whose api element has a name but no
context attribute is rejected with the zero API. -/
theorem apiUnmarshal_rejects_invalid_witness :
    ∃ msg, API.Unmarshal [] [XmlToken.start "api" [("name", "X")] 1,
        XmlToken.close "api" 1] zeroPosition = (zeroAPI, some msg) :=
  (apiUnmarshal_rejects_invalid []
      [XmlToken.start "api" [("name", "X")] 1, XmlToken.close "api" 1]
      zeroPosition noContextAPI (by decide) (Or.inl rfl)).1

end SynapseGo
